import Mathlib

/-!
# Verification of the appointment scheduling engine

A shallow embedding, in Lean 4, of the appointment scheduling and booking
engine of this repository (`backend/app/services/calendar.py` and
`backend/app/repositories/waitlist.py`), together with proofs and
refutations of the specified properties.

Modelling conventions:

* Times of day are minutes since midnight (`Nat`); the database stores
  `HH:MM` strings, so appointment records carry the string and the slot
  generator parses it exactly as `datetime.strptime(_, '%H:%M')` does
  (1–2 digit fields, hour ≤ 23, minute ≤ 59, nothing left over).
* Dates are `(year, month, day)` triples; `datetime + timedelta(days=n)`
  is `n` iterations of the successor function on valid dates, and
  `strftime('%Y-%m-%d')` is fixed-width decimal formatting.  Python
  `datetime` values are always valid calendar dates, so loops over date
  ranges guard on validity: the guard is vacuous on every state that has
  a Python counterpart.
* SQL string comparison (`date >= ?` etc.) is lexicographic comparison by
  code point, exactly as in SQLite/Python; it is embedded by `strLeB`.
* A Python function that can raise (e.g. `strptime` on malformed input)
  is embedded with an `Option` result, `none` standing for the exception.
* `uuid.uuid4()` / `datetime.now().isoformat()` results are passed in as
  explicit arguments (`newId`, `nowIso`).
* Dictionaries returned to the caller are embedded as structures; purely
  cosmetic display strings (e.g. `'%B %d, %Y'` renderings in confirmation
  messages) are not modelled, only the data the claims speak about.
-/

/-! ## Characters, decimal digits, and Python string comparison -/

/-- The decimal digit character for `n % 10` (code point `48 + n % 10`). -/
def digitChar10 (n : Nat) : Char := Char.ofNat (48 + n % 10)

/-- Fixed-width 2-digit rendering of `n` (as used by `strftime('%H')`,
`'%M'`, `'%m'`, `'%d'`); faithful for `n ≤ 99`. -/
def pad2Chars (n : Nat) : List Char := [digitChar10 (n / 10), digitChar10 n]

/-- Fixed-width 4-digit rendering of `n` (as used by `strftime('%Y')` for
years 1000–9999, the only years exercised here). -/
def pad4Chars (n : Nat) : List Char :=
  [digitChar10 (n / 1000), digitChar10 (n / 100), digitChar10 (n / 10), digitChar10 n]

/-- Lexicographic (code point) strict comparison of character lists:
Python / SQLite `<` on strings. -/
def charsLt : List Char → List Char → Bool
  | [], [] => false
  | [], _ :: _ => true
  | _ :: _, [] => false
  | a :: as, b :: bs =>
    Nat.blt a.toNat b.toNat || (Nat.beq a.toNat b.toNat && charsLt as bs)

/-- Lexicographic (code point) comparison of character lists:
Python / SQLite `<=` on strings. -/
def charsLe : List Char → List Char → Bool
  | [], _ => true
  | _ :: _, [] => false
  | a :: as, b :: bs =>
    Nat.blt a.toNat b.toNat || (Nat.beq a.toNat b.toNat && charsLe as bs)

/-- Python / SQLite string `<=` (used for SQL `date >= ?`/`date <= ?`
filters and `ORDER BY`). -/
def strLeB (s t : String) : Bool := charsLe s.toList t.toList

/-- Python / SQLite string `<` . -/
def strLtB (s t : String) : Bool := charsLt s.toList t.toList

/-- `s.split(sep)` on character lists, Python semantics:
`splitCh sep [] = [[]]`, and the separator is dropped. -/
def splitCh (sep : Char) : List Char → List (List Char)
  | [] => [[]]
  | c :: cs =>
    let r := splitCh sep cs
    if c = sep then [] :: r
    else
      match r with
      | h :: t => (c :: h) :: t
      | [] => [[c]]

/-- Digits-only test for a character list. -/
def allDigits (cs : List Char) : Bool := cs.all fun c => c.isDigit

/-- Numeric value of a digit list (most significant first). -/
def digitsVal (cs : List Char) : Nat := cs.foldl (fun a c => a * 10 + (c.toNat - 48)) 0

/-- `str.lower()` (ASCII, which covers every keyword compared against). -/
def toLowerCh (cs : List Char) : List Char := cs.map Char.toLower

/-- `str.strip()`: drop leading and trailing whitespace. -/
def trimCh (cs : List Char) : List Char :=
  ((cs.dropWhile Char.isWhitespace).reverse.dropWhile Char.isWhitespace).reverse

/-- `s.lower().strip()` as one step. -/
def lowerTrim (s : String) : String := String.mk (trimCh (toLowerCh s.toList))

/-! ## Times of day: `strptime(_, '%H:%M')` and `strftime('%H:%M')` -/

/-- `datetime.strptime(s, '%H:%M')`, returning minutes since midnight.
`%H`/`%M` each match 1–2 digits, hour ≤ 23, minute ≤ 59, and the whole
string must be consumed; `none` models the raised `ValueError`. -/
def parseHM (s : String) : Option Nat :=
  match splitCh ':' s.toList with
  | [h, m] =>
    if allDigits h ∧ allDigits m ∧ h ≠ [] ∧ m ≠ [] ∧ h.length ≤ 2 ∧ m.length ≤ 2 then
      let hv := digitsVal h
      let mv := digitsVal m
      if hv ≤ 23 ∧ mv ≤ 59 then some (hv * 60 + mv) else none
    else none
  | _ => none

/-- `strftime('%H:%M')` of a time of day given in minutes (faithful for
`t < 1440`, i.e. every time a `datetime` of the engine can hold). -/
def fmtHMChars (t : Nat) : List Char := pad2Chars (t / 60) ++ ':' :: pad2Chars (t % 60)

/-- `strftime('%H:%M')` as a string. -/
def fmtHM (t : Nat) : String := String.mk (fmtHMChars t)

/-! ## Dates: the Gregorian calendar as `datetime.date` implements it -/

/-- A calendar date as held by `datetime.date`: year, month, day. -/
structure Date where
  y : Nat
  m : Nat
  d : Nat
deriving DecidableEq, Repr

/-- Gregorian leap-year test. -/
def isLeap (y : Nat) : Bool := (y % 4 = 0 ∧ y % 100 ≠ 0) ∨ y % 400 = 0

/-- Days in a month of a given year. -/
def daysInMonth (y m : Nat) : Nat :=
  if m = 2 then (if isLeap y then 29 else 28)
  else if m = 4 ∨ m = 6 ∨ m = 9 ∨ m = 11 then 30
  else 31

/-- The domain of `datetime.date`: months 1–12, days 1–`daysInMonth`.
Every Python `datetime` value satisfies this by construction. -/
def Date.Valid (c : Date) : Prop :=
  1 ≤ c.m ∧ c.m ≤ 12 ∧ 1 ≤ c.d ∧ c.d ≤ daysInMonth c.y c.m

instance (c : Date) : Decidable c.Valid := by unfold Date.Valid; infer_instance

/-- `date + timedelta(days=1)`. -/
def Date.next (c : Date) : Date :=
  if c.d < daysInMonth c.y c.m then ⟨c.y, c.m, c.d + 1⟩
  else if c.m < 12 then ⟨c.y, c.m + 1, 1⟩
  else ⟨c.y + 1, 1, 1⟩

/-- `date + timedelta(days=n)`. -/
def Date.addDays (c : Date) : Nat → Date
  | 0 => c
  | n + 1 => (c.addDays n).next

/-- Numeric key ordering dates chronologically (on valid dates):
`y * 10000 + m * 100 + d`.  `datetime` comparison is embedded as
comparison of keys. -/
def Date.key (c : Date) : Nat := c.y * 10000 + c.m * 100 + c.d

/-- `strftime('%Y-%m-%d')` of a date, as a character list. -/
def dateChars (c : Date) : List Char :=
  pad4Chars c.y ++ '-' :: (pad2Chars c.m ++ '-' :: pad2Chars c.d)

/-- `strftime('%Y-%m-%d')` of a date. -/
def fmtDate (c : Date) : String := String.mk (dateChars c)

/-- `strptime(s, '%Y-%m-%d')`: 1–4 digit year, 1–2 digit month and day,
nothing left over, and the triple must be a real calendar date
(`datetime` range: year ≥ 1). `none` models the raised `ValueError`. -/
def parseDate (s : String) : Option Date :=
  match splitCh '-' s.toList with
  | [ys, ms, ds] =>
    if allDigits ys ∧ allDigits ms ∧ allDigits ds ∧ ys ≠ [] ∧ ms ≠ [] ∧ ds ≠ [] ∧
        ys.length ≤ 4 ∧ ms.length ≤ 2 ∧ ds.length ≤ 2 then
      let c : Date := ⟨digitsVal ys, digitsVal ms, digitsVal ds⟩
      if 1 ≤ c.y ∧ c.Valid then some c else none
    else none
  | _ => none

/-- Sunday-start weekday names in the cycle order used below. -/
def weekdayNames : List String :=
  ["monday", "tuesday", "wednesday", "thursday", "friday", "saturday", "sunday"]

/-- `strftime('%A').lower()`: weekday of a valid date by Zeller's
congruence (0 = Monday … 6 = Sunday, matching `date.weekday()`). -/
def weekdayName (c : Date) : String :=
  let ym := if c.m ≤ 2 then (c.y - 1, c.m + 12) else (c.y, c.m)
  let y := ym.1
  let m := ym.2
  let k := y % 100
  let j := y / 100
  -- Zeller: h = (d + 13(m+1)/5 + k + k/4 + j/4 + 5j) mod 7, h = 0 is Saturday.
  let h := (c.d + (13 * (m + 1)) / 5 + k + k / 4 + j / 4 + 5 * j) % 7
  -- convert: h = 0 (Saturday) ↦ weekday() = 5, i.e. weekday() = (h + 5) % 7
  weekdayNames.getD ((h + 5) % 7) ""

/-! ## Substring search (Python `in` on strings) and `int()` parsing -/

/-- Python `sub in s` on character lists. -/
def containsCh (sub : List Char) : List Char → Bool
  | [] => sub.isEmpty
  | c :: cs => sub.isPrefixOf (c :: cs) || containsCh sub cs

/-- Python `sub in s` on strings. -/
def containsStr (sub s : String) : Bool := containsCh sub.toList s.toList

/-- `re.search(kw + r'\s*(\d+)', s)`: leftmost occurrence of the literal
keyword followed by optional whitespace and at least one digit; returns
the numeric value of the maximal digit run. -/
def findIntAfterKw (kw : List Char) : List Char → Option Nat
  | [] => none
  | c :: cs =>
    if kw.isPrefixOf (c :: cs) then
      let rest := (c :: cs).drop kw.length
      let ds := (rest.dropWhile (·.isWhitespace)).takeWhile (·.isDigit)
      if ds ≠ [] then some (digitsVal ds) else findIntAfterKw kw cs
    else findIntAfterKw kw cs

/-- Python `int(s)` restricted to an optional sign and decimal digits
(whitespace stripped), as `_time_matches_preference` uses it on the first
`':'`-separated field of a time string; `none` models `ValueError`. -/
def parseIntPy (s : String) : Option Int :=
  let cs := trimCh s.toList
  match cs with
  | '+' :: ds => if ds ≠ [] ∧ allDigits ds then some (digitsVal ds) else none
  | '-' :: ds => if ds ≠ [] ∧ allDigits ds then some (-(digitsVal ds : Int)) else none
  | ds => if ds ≠ [] ∧ allDigits ds then some (digitsVal ds) else none

/-! ## `parse_time_preference` (calendar.py lines 54–85) -/

/-- `parse_time_preference`: maps a free-text time-of-day preference to an
`(hourStart, hourEnd)` pair; falsy input (None or `''`) and unparseable
input fall back to `(9, 18)`. -/
def parseTimePreference (timePref : Option String) : Nat × Nat :=
  match timePref with
  | none => (9, 18)
  | some s =>
    if s = "" then (9, 18)
    else
      let l := lowerTrim s
      if l = "morning" ∨ l = "am" then (9, 12)
      else if l = "afternoon" then (12, 17)
      else if l = "evening" ∨ l = "late" ∨ l = "after 5pm" ∨ l = "after 5" then (17, 20)
      else if containsStr "after" l then
        match findIntAfterKw "after".toList l.toList with
        | some h => (if containsStr "pm" l ∧ h < 12 then h + 12 else h, 20)
        | none => (9, 18)
      else if containsStr "before" l then
        match findIntAfterKw "before".toList l.toList with
        | some h => (9, if containsStr "pm" l ∧ h < 12 then h + 12 else h)
        | none => (9, 18)
      else (9, 18)

/-! ## Business configuration and `get_business_hours_for_day` -/

/-- One weekday's entry of the `hours` dict of the business config. -/
structure DayHours where
  closed : Bool
  openT : Option String
  closeT : Option String
deriving DecidableEq, Repr

/-- One entry of the `services` list of the business config. -/
structure ServiceCfg where
  id : Option String
  name : Option String
  durationMinutes : Option Nat
deriving DecidableEq, Repr

/-- The business config dict (only the keys the engine reads). -/
structure BusinessConfig where
  hours : List (String × DayHours)
  services : List ServiceCfg
deriving DecidableEq, Repr

/-- `get_business_hours_for_day` (calendar.py lines 88–100): the open and
close `HH:MM` strings for a weekday name, `none` when the day is marked
closed; a day absent from config defaults to 09:00–18:00. -/
def getBusinessHoursForDay (config : BusinessConfig) (dayName : String) :
    Option (String × String) :=
  let dayLower := String.mk (toLowerCh dayName.toList)
  match config.hours.find? (fun kv => kv.1 = dayLower) with
  | some (_, dh) =>
    if dh.closed then none
    else some (dh.openT.getD "09:00", dh.closeT.getD "18:00")
  | none => some ("09:00", "18:00")

/-! ## `generate_time_slots` (calendar.py lines 103–168) -/

/-- Python truthiness of an optional string (`None` and `''` are falsy). -/
def truthyOpt : Option String → Bool
  | none => false
  | some s => !s.isEmpty

/-- `staff_id or 'any'`. -/
def staffOrAny (staffId : Option String) : String :=
  match staffId with
  | some s => if s.isEmpty then "any" else s
  | none => "any"

/-- A returned availability slot (the dict built at calendar.py lines
156–163). `timeMin` is the numeric value that the `time` field renders;
it is carried alongside the string for specification purposes. -/
structure Slot where
  id : String
  date : String
  time : String
  timeMin : Nat
  staffId : Option String
  staffName : Option String
  durationMinutes : Nat
deriving DecidableEq, Repr

/-- A `(time, staff_id, duration_minutes)` tuple of an existing
appointment, as passed to `generate_time_slots`. -/
structure BookedRow where
  time : String
  staffId : Option String
  durationMinutes : Nat
deriving DecidableEq, Repr

/-- Half-open interval overlap: `not (e1 <= s2 or s1 >= e2)`. -/
def overlapB (s1 e1 s2 e2 : Nat) : Bool :=
  if e1 ≤ s2 ∨ s1 ≥ e2 then false else true

/-- The inner `for booked_time, booked_staff, booked_duration in
booked_slots` loop: staff-mismatch rows are skipped before their time is
parsed; a malformed stored time raises (`none`); otherwise the half-open
overlap test runs, stopping at the first conflict. -/
def scanBooked (slotStart slotEnd : Nat) (staffId : Option String) :
    List BookedRow → Option Bool
  | [] => some false
  | b :: bs =>
    if truthyOpt staffId ∧ truthyOpt b.staffId ∧ staffId ≠ b.staffId then
      scanBooked slotStart slotEnd staffId bs
    else
      match parseHM b.time with
      | none => none
      | some t =>
        if overlapB slotStart slotEnd t (t + b.durationMinutes) then some true
        else scanBooked slotStart slotEnd staffId bs

/-- The slot id `f"{date}_{time}_{staff_id or 'any'}"`. -/
def slotIdStr (dateStr : String) (t : Nat) (staffId : Option String) : String :=
  String.mk (dateStr.toList ++ '_' :: fmtHMChars t ++ '_' :: (staffOrAny staffId).toList)

/-- The slot dict appended at calendar.py lines 156–163. -/
def mkSlot (dateStr : String) (t : Nat) (staffId staffName : Option String)
    (durationMinutes : Nat) : Slot :=
  ⟨slotIdStr dateStr t staffId, dateStr, fmtHM t, t, staffId, staffName, durationMinutes⟩

/-- The `while current_time + timedelta(minutes=duration) <= end_time`
walk of `generate_time_slots`, in minutes since midnight: skip past times
(today only), then the conflict scan, advancing 30 minutes per step.
The first argument is structural-recursion fuel: every call below passes
at least `endT + 1 - cur`, and since `cur` advances each iteration the
loop always terminates on its own condition before the fuel runs out, so
the `fuel = 0` case (which mirrors the exhausted loop condition) is
never the deciding one. -/
def slotLoop (dateStr : String) (isToday : Bool) (nowMin durationMinutes : Nat)
    (booked : List BookedRow) (staffId staffName : Option String)
    (endT : Nat) : Nat → Nat → Option (List Slot)
  | 0, _ => some []
  | fuel + 1, cur =>
    if cur + durationMinutes ≤ endT then
      if isToday ∧ cur ≤ nowMin then
        slotLoop dateStr isToday nowMin durationMinutes booked staffId staffName endT fuel
          (cur + 30)
      else
        match scanBooked cur (cur + durationMinutes) staffId booked with
        | none => none
        | some true =>
          slotLoop dateStr isToday nowMin durationMinutes booked staffId staffName endT fuel
            (cur + 30)
        | some false =>
          (slotLoop dateStr isToday nowMin durationMinutes booked staffId staffName endT fuel
              (cur + 30)).map
            (mkSlot dateStr cur staffId staffName durationMinutes :: ·)
    else some []

/-- `generate_time_slots` (calendar.py lines 103–168).  The business-hour
strings are parsed up front (`strptime` raising on malformed input);
only their hour components are used.  `datetime.min.time().replace(hour=
start_hour)` raises when the preference start exceeds 23, hence the
guard.  The date is given by its formatted string plus whether it equals
today's date; `nowMin` is the current time of day in minutes. -/
def generateTimeSlots (dateStr : String) (isToday : Bool) (nowMin : Nat)
    (durationMinutes : Nat) (businessHours : String × String)
    (timeStart timeEnd : Nat) (booked : List BookedRow)
    (staffId staffName : Option String) : Option (List Slot) :=
  match parseHM businessHours.1, parseHM businessHours.2 with
  | some o, some cl =>
    let startHour := max (o / 60) timeStart
    let endHour := min (cl / 60) timeEnd
    if 23 < startHour then none
    else
      slotLoop dateStr isToday nowMin durationMinutes booked staffId staffName
        (endHour * 60) (endHour * 60 + 1) (startHour * 60)
  | _, _ => none

/-! ## Service lookup in the business config (calendar.py 197–206, 337–346) -/

/-- `s.get('name', '').lower().replace(' ', '_')`. -/
def normServiceName (n : String) : String :=
  String.mk ((toLowerCh n.toList).map fun c => if c = ' ' then '_' else c)

/-- The match test of the config-service loop:
`s.get('id') == service_id or s.get('name', '').lower().replace(' ', '_') == service_id`. -/
def serviceMatches (serviceId : String) (s : ServiceCfg) : Bool :=
  s.id = some serviceId ∨ normServiceName (s.name.getD "") = serviceId

/-- The service duration resolved from config; 60 when the config is
falsy, has no matching service, or the entry lacks `duration_minutes`.
This block appears verbatim in both `check_availability` and
`book_appointment`. -/
def serviceDuration (config : Option BusinessConfig) (serviceId : String) : Nat :=
  match config with
  | some cfg =>
    match cfg.services.find? (serviceMatches serviceId) with
    | some s => s.durationMinutes.getD 60
    | none => 60
  | none => 60

/-! ## The appointment store -/

/-- `status` column values (`CHECK (status IN ...)` in the schema). -/
inductive ApptStatus where
  | scheduled
  | confirmed
  | completed
  | cancelled
  | noShow
deriving DecidableEq, Repr

/-- `status NOT IN ('cancelled', 'no_show')`. -/
def ApptStatus.isActive : ApptStatus → Bool
  | .cancelled => false
  | .noShow => false
  | _ => true

/-- A row of the `appointments` table. -/
structure Appt where
  id : String
  businessId : String
  customerId : Option String
  serviceId : String
  staffId : Option String
  customerName : String
  customerPhone : String
  customerEmail : Option String
  date : String
  time : String
  durationMinutes : Nat
  status : ApptStatus
  notes : Option String
  createdAt : String
  updatedAt : String
deriving DecidableEq, Repr

/-- A row of the `staff` table (the columns the engine reads). -/
structure StaffRow where
  id : String
  businessId : String
  name : String
  servicesOffered : List String
  isActive : Bool
deriving DecidableEq, Repr

/-- A row of the `customers` table (the columns `book_appointment`
updates). -/
structure Customer where
  id : String
  visitCount : Nat
  lastVisitDate : Option String
  favoriteServiceId : Option String
  updatedAt : String
deriving DecidableEq, Repr

/-- The datastore the calendar service operates on.  (The `services`
table is consulted by cancel/reschedule only for display names in
messages, which are not modelled.) -/
structure EngineState where
  appts : List Appt
  staff : List StaffRow
  customers : List Customer
deriving DecidableEq, Repr

/-! ## `book_appointment` (calendar.py lines 296–421) -/

/-- Slot-id decoding (calendar.py lines 324–331): `slot_id.split('_')`;
fewer than two parts raises `IndexError`, caught and turned into the
invalid-slot error (`none` here); `parts[2]` is the staff id unless
missing or the literal `'any'`. -/
def decodeSlotId (slotId : String) : Option (String × String × Option String) :=
  match splitCh '_' slotId.toList with
  | p0 :: p1 :: rest =>
    some (String.mk p0, String.mk p1,
      match rest with
      | p2 :: _ => if String.mk p2 = "any" then none else some (String.mk p2)
      | [] => none)
  | _ => none

/-- Result of `book_appointment`: the two error dicts, the uncaught
`sqlite3.IntegrityError` on a duplicate primary key (`id TEXT PRIMARY
KEY`; nothing is committed), or the confirmation. -/
inductive BookResult where
  | invalidSlot
  | slotTaken
  | dbError
  | booked (confirmationId : String) (durationMinutes : Nat) (staffName : Option String)
deriving DecidableEq, Repr

/-- Result and post-state of a `book_appointment` call. -/
structure BookOutcome where
  result : BookResult
  state : EngineState
deriving Repr

/-- `book_appointment` (calendar.py lines 296–421).  `newId` is the
`uuid.uuid4()` value and `nowIso` the `datetime.now().isoformat()`
value of the call. -/
def bookAppointment (businessId serviceId slotId customerName customerPhone : String)
    (customerEmail customerId notes : Option String) (config : Option BusinessConfig)
    (newId nowIso : String) (st : EngineState) : BookOutcome :=
  match decodeSlotId slotId with
  | none => ⟨.invalidSlot, st⟩
  | some (date, time, staffId) =>
    let duration := serviceDuration config serviceId
    -- SELECT name FROM staff WHERE id = ? (guarded by `if staff_id:`)
    let staffName :=
      if truthyOpt staffId then (st.staff.find? fun r => r.id = staffId.getD "").map (·.name)
      else none
    -- authoritative availability check: same business, same date and time
    -- strings, status not cancelled / no_show — no staff or interval test
    if st.appts.any fun a =>
        a.businessId = businessId ∧ a.date = date ∧ a.time = time ∧ a.status.isActive then
      ⟨.slotTaken, st⟩
    else if st.appts.any fun a => a.id = newId then
      ⟨.dbError, st⟩
    else
      let newAppt : Appt :=
        ⟨newId, businessId, customerId, serviceId, staffId, customerName, customerPhone,
          customerEmail, date, time, duration, .scheduled, notes, nowIso, nowIso⟩
      let customers' :=
        match customerId with
        | some cid =>
          if cid = "" then st.customers
          else
            st.customers.map fun c =>
              if c.id = cid then
                { c with visitCount := c.visitCount + 1, lastVisitDate := some date,
                         favoriteServiceId := some serviceId, updatedAt := nowIso }
              else c
        | none => st.customers
      ⟨.booked newId duration staffName,
        { st with appts := st.appts ++ [newAppt], customers := customers' }⟩

/-! ## `cancel_appointment` (calendar.py lines 424–478) -/

/-- `ORDER BY date, time LIMIT 1` over a fetched set: the minimum in the
lexicographic (date, time) string order, first row winning ties. -/
def minByDateTime (l : List Appt) : Option Appt :=
  l.foldl
    (fun acc a =>
      match acc with
      | none => some a
      | some b =>
        if strLtB a.date b.date ∨ (a.date = b.date ∧ strLtB a.time b.time) then some a
        else some b)
    none

/-- Result and post-state of a `cancel_appointment` call.
`waitlistCalls` records the `(serviceId, date, time)` tuples with which
the call invokes the waitlist matcher
(`WaitlistRepository.find_waiting_for_service_and_date`); the source
function makes no such call, so the field is always `[]`. -/
structure CancelOutcome where
  cancelled : Bool
  apptId : Option String
  waitlistCalls : List (String × String × String)
  state : EngineState
deriving Repr

/-- `cancel_appointment` (calendar.py lines 424–478).  `today` is
`datetime.now()`'s date.  With a truthy appointment id the target is the
scheduled appointment with that id in the business; otherwise it is the
customer's earliest upcoming (`date >= today`, string comparison)
scheduled appointment by phone.  The target's status is set to
`cancelled`; no waitlist matching is triggered. -/
def cancelAppointment (businessId customerPhone : String) (apptId : Option String)
    (today : Date) (nowIso : String) (st : EngineState) : CancelOutcome :=
  let target :=
    if truthyOpt apptId then
      st.appts.find? fun a =>
        a.id = apptId.getD "" ∧ a.businessId = businessId ∧ a.status = ApptStatus.scheduled
    else
      minByDateTime <| st.appts.filter fun a =>
        a.businessId = businessId ∧ a.customerPhone = customerPhone ∧
          a.status = ApptStatus.scheduled ∧ strLeB (fmtDate today) a.date
  match target with
  | none => ⟨false, none, [], st⟩
  | some a =>
    ⟨true, some a.id, [],
      { st with
          appts := st.appts.map fun x =>
            if x.id = a.id then { x with status := .cancelled, updatedAt := nowIso } else x }⟩

/-! ## `reschedule_appointment` (calendar.py lines 481–557) -/

/-- Result of `reschedule_appointment`. -/
inductive RescheduleResult where
  | invalidSlot
  | notFound
  | slotTaken
  | rescheduled (newConfirmationId : String)
deriving DecidableEq, Repr

/-- Result and post-state of a `reschedule_appointment` call. -/
structure RescheduleOutcome where
  result : RescheduleResult
  state : EngineState
deriving Repr

/-- `reschedule_appointment` (calendar.py lines 481–557): decode the new
slot id; require a scheduled appointment with the given id; reject when
another non-cancelled appointment of the business sits at exactly the
new (date, time); otherwise update date, time and
`staff_id = COALESCE(new_staff_id, staff_id)` in place. -/
def rescheduleAppointment (businessId apptId newSlotId nowIso : String)
    (st : EngineState) : RescheduleOutcome :=
  match decodeSlotId newSlotId with
  | none => ⟨.invalidSlot, st⟩
  | some (newDate, newTime, newStaffId) =>
    match st.appts.find? (fun a =>
        a.id = apptId ∧ a.businessId = businessId ∧ a.status = ApptStatus.scheduled) with
    | none => ⟨.notFound, st⟩
    | some _ =>
      if st.appts.any fun a =>
          a.businessId = businessId ∧ a.date = newDate ∧ a.time = newTime ∧
            a.id ≠ apptId ∧ a.status.isActive then
        ⟨.slotTaken, st⟩
      else
        ⟨.rescheduled apptId,
          { st with
              appts := st.appts.map fun x =>
                if x.id = apptId then
                  { x with
                      date := newDate, time := newTime,
                      staffId := match newStaffId with
                        | some s => some s
                        | none => x.staffId,
                      updatedAt := nowIso }
                else x }⟩

/-! ## Engine operations as a transition system (for the invariants) -/

/-- One engine operation, with all the call's inputs (including the
fresh uuid and timestamp the call draws). -/
inductive EngineOp where
  | book (businessId serviceId slotId customerName customerPhone : String)
      (customerEmail customerId notes : Option String) (config : Option BusinessConfig)
      (newId nowIso : String)
  | cancel (businessId customerPhone : String) (apptId : Option String)
      (today : Date) (nowIso : String)
  | reschedule (businessId apptId newSlotId nowIso : String)

/-- The state transition of one engine operation. -/
def EngineOp.apply (op : EngineOp) (st : EngineState) : EngineState :=
  match op with
  | .book b sv sl cn cp ce ci nt cfg nid niso =>
    (bookAppointment b sv sl cn cp ce ci nt cfg nid niso st).state
  | .cancel b cp aid today niso => (cancelAppointment b cp aid today niso st).state
  | .reschedule b aid nsl niso => (rescheduleAppointment b aid nsl niso st).state

/-- Apply a sequence of engine operations in order. -/
def applyOps (ops : List EngineOp) (st : EngineState) : EngineState :=
  ops.foldl (fun s op => op.apply s) st

/-! ## Invariants over the appointment store -/

/-- Two appointments of the same business, staff and date, both with
status in {scheduled, confirmed}, whose half-open
`[start, start + duration)` intervals overlap (times parsed from their
`HH:MM` strings). -/
def apptsOverlapSameStaff (a b : Appt) : Bool :=
  let timesOverlap :=
    match parseHM a.time, parseHM b.time with
    | some ta, some tb => overlapB ta (ta + a.durationMinutes) tb (tb + b.durationMinutes)
    | _, _ => false
  a.businessId = b.businessId ∧ a.staffId = b.staffId ∧ a.date = b.date ∧
    (a.status = ApptStatus.scheduled ∨ a.status = ApptStatus.confirmed) ∧
    (b.status = ApptStatus.scheduled ∨ b.status = ApptStatus.confirmed) ∧
    timesOverlap = true

/-- The spec's no-overlap invariant: for every (business, staff, date),
no two appointments with status in {scheduled, confirmed} have
overlapping `[start, start + duration)` intervals. -/
def NoOverlapInv (l : List Appt) : Prop :=
  l.Pairwise fun a b => apptsOverlapSameStaff a b = false

instance (l : List Appt) : Decidable (NoOverlapInv l) := by
  unfold NoOverlapInv; infer_instance

/-- Two non-cancelled / non-no_show appointments of the same business at
exactly the same (date, time) strings — what `book_appointment` and
`reschedule_appointment` actually test for. -/
def slotClash (a b : Appt) : Bool :=
  a.businessId = b.businessId ∧ a.date = b.date ∧ a.time = b.time ∧
    a.status.isActive ∧ b.status.isActive

/-- The invariant the engine does maintain: per (business, date, time),
at most one appointment with status outside {cancelled, no_show}. -/
def UniqueActiveSlots (l : List Appt) : Prop :=
  l.Pairwise fun a b => slotClash a b = false

instance (l : List Appt) : Decidable (UniqueActiveSlots l) := by
  unfold UniqueActiveSlots; infer_instance

/-- Distinct `id` column values (`id TEXT PRIMARY KEY`). -/
def ApptIdsNodup (l : List Appt) : Prop := (l.map Appt.id).Nodup

instance (l : List Appt) : Decidable (ApptIdsNodup l) := by
  unfold ApptIdsNodup; infer_instance

/-! ## `parse_date_range` (calendar.py lines 10–51) -/

/-- Python `s.split(sep)` for a multi-character separator (leftmost,
non-overlapping).  The empty-separator guard is unreachable here (the
only separator used is `' to '`). -/
def splitStr (sep : List Char) : List Char → List (List Char)
  | [] => [[]]
  | c :: cs =>
    if hsep : sep = [] then [c :: cs]
    else if sep.isPrefixOf (c :: cs) then [] :: splitStr sep ((c :: cs).drop sep.length)
    else
      match splitStr sep cs with
      | h :: t => (c :: h) :: t
      | [] => [[c]]
termination_by cs => cs.length
decreasing_by
  all_goals simp [List.length_drop]
  all_goals (have hpos := List.length_pos.mpr hsep; omega)

/-- `parse_date_range` (calendar.py lines 10–51): keyword ranges are
offsets from today; otherwise a `YYYY-MM-DD` date or a
`YYYY-MM-DD to YYYY-MM-DD` range is parsed, any `ValueError` falling
back to (today, today + 7 days). -/
def parseDateRange (dateRange : String) (today : Date) : Date × Date :=
  let l := lowerTrim dateRange
  if l = "today" then (today, today)
  else if l = "tomorrow" then (today.addDays 1, today.addDays 1)
  else if l = "this week" ∨ l = "week" then (today, today.addDays 7)
  else if l = "next week" then (today.addDays 7, today.addDays 14)
  else if l = "this month" ∨ l = "month" then (today, today.addDays 30)
  else
    let fallback := (today, today.addDays 7)
    let cs := dateRange.toList
    if '-' ∈ cs ∧ 2 < (splitCh '-' cs).length then
      if containsCh " to ".toList cs then
        match splitStr " to ".toList cs with
        | p0 :: p1 :: _ =>
          match parseDate (String.mk (trimCh p0)), parseDate (String.mk (trimCh p1)) with
          | some d0, some d1 => (d0, d1)
          | _, _ => fallback
        | _ => fallback
      else
        match parseDate dateRange with
        | some d => (d, d)
        | none => fallback
    else
      match parseDate dateRange with
      | some d => (d, d)
      | none => fallback

/-- The `while current_date <= end_date` iteration of
`check_availability`, with structural-recursion fuel.  `datetime` values
are valid calendar dates by construction, so the loop is guarded on
validity (vacuous for every state with a Python counterpart); the
comparison is chronological (`Date.key`).  `Date.key` strictly increases
along `Date.next` on valid dates, so with fuel `fin.key + 1 - start.key`
the loop condition always fails no later than the fuel does, and the
`fuel = 0` case coincides with the exhausted loop condition. -/
def dateRangeListF : Nat → Date → Date → List Date
  | 0, _, _ => []
  | fuel + 1, start, fin =>
    if start.Valid ∧ start.key ≤ fin.key then start :: dateRangeListF fuel start.next fin
    else []

/-- The `while current_date <= end_date` iteration of
`check_availability`, as the list of visited dates. -/
def dateRangeList (start fin : Date) : List Date :=
  dateRangeListF (fin.key + 1 - start.key) start fin

/-! ## `check_availability` (calendar.py lines 171–293) -/

/-- The `calendar_ui_data` dict.  `available_dates` and `time_slots` are
`list(set(...))` in the source, whose order is unspecified; they are
modelled as deduplicated lists (membership is what the spec speaks
about). -/
structure CalendarUiData where
  minDate : String
  maxDate : String
  availableDates : List String
  timeSlots : List String
deriving DecidableEq, Repr

/-- The dict returned by `check_availability` (the `service_name`
display string is not modelled). -/
structure AvailabilityResult where
  slots : List Slot
  serviceId : String
  dateRange : String
  calendarUiData : CalendarUiData
deriving DecidableEq, Repr

/-- The staff pool of `check_availability` (lines 211–230): active staff
of the business offering the service (empty `services_offered` means
all), narrowed to a requested staff member, with the `(None, None)`
"any staff" sentinel when nothing remains.  Pairs are (staff id, staff
name). -/
def availableStaffPool (businessId serviceId : String) (staffIdArg : Option String)
    (staff : List StaffRow) : List (Option String × Option String) :=
  let rows := staff.filter fun r => r.businessId = businessId ∧ r.isActive = true
  let avail := rows.filter fun r => r.servicesOffered = [] ∨ serviceId ∈ r.servicesOffered
  let avail' :=
    if truthyOpt staffIdArg then avail.filter fun r => r.id = staffIdArg.getD ""
    else avail
  if avail' = [] then [(none, none)]
  else avail'.map fun r => (some r.id, some r.name)

/-- The appointment fetch of `check_availability` (lines 237–242):
same business, `date` between the range bounds in SQL string order,
status not cancelled / no_show. -/
def fetchApptsInRange (businessId startStr endStr : String) (appts : List Appt) :
    List Appt :=
  appts.filter fun a =>
    a.businessId = businessId ∧ strLeB startStr a.date = true ∧
      strLeB a.date endStr = true ∧ a.status.isActive = true

/-- The `booked_by_date` grouping (lines 245–250), read back for one
date: the `(time, staff_id, duration_minutes)` tuples of fetched
appointments whose `date` string equals the day's. -/
def bookedRowsFor (dateStr : String) (fetched : List Appt) : List BookedRow :=
  (fetched.filter fun a => a.date = dateStr).map fun a =>
    ⟨a.time, a.staffId, a.durationMinutes⟩

/-- One day of the availability loop (lines 256–277): resolve hours
(closed days contribute nothing), then one `generate_time_slots` call
per staff pool entry, concatenated in pool order. -/
def daySlotsFor (cfg : Option BusinessConfig) (c : Date) (isToday : Bool)
    (nowMin duration timeStart timeEnd : Nat) (fetched : List Appt)
    (pool : List (Option String × Option String)) : Option (List Slot) :=
  match getBusinessHoursForDay (cfg.getD ⟨[], []⟩) (weekdayName c) with
  | none => some []
  | some bh =>
    let dateStr := fmtDate c
    let booked := bookedRowsFor dateStr fetched
    (pool.mapM fun s =>
        generateTimeSlots dateStr isToday nowMin duration bh timeStart timeEnd booked
          s.1 s.2).map List.flatten

/-- The full `all_slots` list of `check_availability` before truncation:
days in range order, staff pool order within a day. -/
def allSlotsFor (cfg : Option BusinessConfig) (days : List Date) (today : Date)
    (nowMin duration timeStart timeEnd : Nat) (fetched : List Appt)
    (pool : List (Option String × Option String)) : Option (List Slot) :=
  (days.mapM fun c =>
      daySlotsFor cfg c (c = today) nowMin duration timeStart timeEnd fetched pool).map
    List.flatten

/-- `check_availability` (calendar.py lines 171–293).  `today`/`nowMin`
are `datetime.now()`'s date and time of day.  The slot list is truncated
to its first 20 entries (`all_slots[:20]`), and the UI aggregates are
computed from the truncated list. -/
def checkAvailability (businessId serviceId dateRangeArg : String)
    (timePreference staffIdArg : Option String) (cfg : Option BusinessConfig)
    (today : Date) (nowMin : Nat) (st : EngineState) : Option AvailabilityResult :=
  let duration := serviceDuration cfg serviceId
  let pool := availableStaffPool businessId serviceId staffIdArg st.staff
  let range := parseDateRange dateRangeArg today
  let pref := parseTimePreference timePreference
  let startStr := fmtDate range.1
  let endStr := fmtDate range.2
  let fetched := fetchApptsInRange businessId startStr endStr st.appts
  let days := dateRangeList range.1 range.2
  (allSlotsFor cfg days today nowMin duration pref.1 pref.2 fetched pool).map fun all =>
    let slots := all.take 20
    { slots := slots, serviceId := serviceId, dateRange := dateRangeArg,
      calendarUiData :=
        { minDate := startStr, maxDate := endStr,
          availableDates := (slots.map (·.date)).dedup,
          timeSlots := (slots.map (·.time)).dedup } }

/-! ## The waitlist repository (`repositories/waitlist.py`) -/

/-- `waitlist.status` column values. -/
inductive WaitlistStatus where
  | waiting
  | notified
  | booked
  | expired
  | cancelled
deriving DecidableEq, Repr

/-- A row of the `waitlist` table.  `preferred_dates` /
`preferred_times` are stored as JSON-encoded lists of strings and read
back through `json.loads`; they are modelled as the lists themselves.
(The SQL filter `preferred_dates LIKE '%"<date>"%' OR preferred_dates =
'[]'` coincides with list membership / emptiness for the quote-free
`YYYY-MM-DD` strings these columns hold.) -/
structure WEntry where
  id : String
  businessId : String
  customerId : Option String
  serviceId : String
  customerName : String
  customerContact : String
  preferredDates : List String
  preferredTimes : List String
  contactMethod : String
  status : WaitlistStatus
  notes : Option String
  createdAt : String
  updatedAt : String
deriving DecidableEq, Repr

/-- `waitlist_notifications.response` column values. -/
inductive NotifResponse where
  | pending
  | accepted
  | declined
  | expired
deriving DecidableEq, Repr

/-- A row of the `waitlist_notifications` table. -/
structure WNotification where
  id : String
  waitlistId : String
  cancelledAppointmentId : Option String
  notificationSentAt : String
  response : NotifResponse
  responseAt : Option String
  bookingCreated : Bool
deriving DecidableEq, Repr

/-- The waitlist datastore. -/
structure WaitlistState where
  entries : List WEntry
  notifications : List WNotification
deriving DecidableEq, Repr

/-- `_time_matches_preference` (waitlist.py lines 274–292): the hour is
`int(slot_time.split(":")[0])` (any exception yields `False`), matched
against bucket names and the `"after 5"` / `"before noon"` free-text
patterns. -/
def timeMatchesPreference (slotTime : String) (preferences : List String) : Bool :=
  match parseIntPy (String.mk ((splitCh ':' slotTime.toList).headD [])) with
  | none => false
  | some hour =>
    preferences.any fun pref =>
      let pl := String.mk (toLowerCh pref.toList)
      (pl = "morning" ∧ 6 ≤ hour ∧ hour < 12) ∨
      (pl = "afternoon" ∧ 12 ≤ hour ∧ hour < 17) ∨
      (pl = "evening" ∧ 17 ≤ hour ∧ hour < 21) ∨
      (containsStr "after 5" pl ∧ 17 ≤ hour) ∨
      (containsStr "before noon" pl ∧ hour < 12)

/-- Eligibility of a waitlist row for a freed (service, date) — the SQL
`WHERE` clause of `find_waiting_for_service_and_date`. -/
def waitlistEligible (businessId serviceId date : String) (e : WEntry) : Bool :=
  e.businessId = businessId ∧ e.serviceId = serviceId ∧
    e.status = WaitlistStatus.waiting ∧
    (date ∈ e.preferredDates ∨ e.preferredDates = [])

/-- The comparison `ORDER BY created_at ASC` sorts by: SQL `<=` on the
timestamp strings. -/
def createdLe (a b : WEntry) : Prop := strLeB a.createdAt b.createdAt = true

instance (a b : WEntry) : Decidable (createdLe a b) := by
  unfold createdLe; infer_instance

/-- `ORDER BY created_at ASC`: a stable sort on the `created_at` string
(SQL leaves tie order unspecified; the stable insertion sort is one
refinement). -/
def sortByCreatedAt (l : List WEntry) : List WEntry :=
  l.insertionSort createdLe

/-- The Python time filter applied per entry: empty preferences, the
literal `time_preference` among them, or a bucket match. -/
def entryMatchesTimePref (tp : String) (e : WEntry) : Bool :=
  e.preferredTimes = [] ∨ tp ∈ e.preferredTimes ∨
    timeMatchesPreference tp e.preferredTimes = true

/-- `find_waiting_for_service_and_date` (waitlist.py lines 236–272):
waiting entries of the business/service whose `preferred_dates` is empty
or contains the date, ordered by `created_at`; when a truthy time
preference is given and entries exist, they are filtered by time match,
falling back to the first 3 unfiltered entries if nothing matches. -/
def findWaitingForServiceAndDate (businessId serviceId date : String)
    (timePreference : Option String) (entries : List WEntry) : List WEntry :=
  let eligible := sortByCreatedAt (entries.filter (waitlistEligible businessId serviceId date))
  if truthyOpt timePreference ∧ eligible ≠ [] then
    let filtered := eligible.filter (entryMatchesTimePref (timePreference.getD ""))
    if filtered ≠ [] then filtered else eligible.take 3
  else eligible

/-- `mark_notified` (waitlist.py lines 294–317): unconditionally set the
entry's status to `notified`; when a truthy cancelled-appointment id is
given, additionally insert a fresh notification with
`response = 'pending'`.  Returns `cursor.rowcount > 0` — the row count
of the last executed statement (the insert when it happens, otherwise
the update). -/
def markNotified (waitlistId : String) (cancelledAppointmentId : Option String)
    (newNotifId nowIso : String) (st : WaitlistState) : Bool × WaitlistState :=
  let entries' := st.entries.map fun e =>
    if e.id = waitlistId then { e with status := WaitlistStatus.notified, updatedAt := nowIso }
    else e
  if truthyOpt cancelledAppointmentId then
    (true,
      { entries := entries',
        notifications := st.notifications ++
          [⟨newNotifId, waitlistId, cancelledAppointmentId, nowIso, .pending, none, false⟩] })
  else
    (st.entries.any fun e => e.id = waitlistId, { st with entries := entries' })

/-- The number of pending notifications held for a waitlist entry. -/
def pendingCountFor (waitlistId : String) (l : List WNotification) : Nat :=
  (l.filter fun n => n.waitlistId = waitlistId ∧ n.response = NotifResponse.pending).length

/-! ## A concrete booking round-trip scenario

A small salon used to exercise the round-trip property on concrete
data: one service, no staff rows (the any-staff sentinel), Monday hours
09:00-11:00, one availability call, a booking of its first slot, and a
second availability call on the post-booking state. -/

/-- Business config of the concrete round-trip scenario. -/
def rtConfig : BusinessConfig :=
  ⟨[("monday", ⟨false, some "09:00", some "11:00"⟩)],
    [⟨some "svc", some "Cut", some 60⟩]⟩

/-- An empty `AvailabilityResult`, used as `Option.getD` default. -/
def emptyAvailability : AvailabilityResult := ⟨[], "", "", ⟨"", "", [], []⟩⟩

/-- An empty `Slot`, used as `List.getD` default. -/
def emptySlot : Slot := ⟨"", "", "", 0, none, none, 0⟩

/-- First availability call of the round-trip scenario. -/
def rtRun1 : AvailabilityResult :=
  (checkAvailability "b1" "svc" "today" none none (some rtConfig) ⟨2025, 1, 6⟩ 0
    ⟨[], [], []⟩).getD emptyAvailability

/-- The slot that gets booked (the first returned one, 09:00). -/
def rtSlot : Slot := rtRun1.slots.getD 0 emptySlot

/-- The booking of `rtSlot`. -/
def rtBook : BookOutcome :=
  bookAppointment "b1" "svc" rtSlot.id "Ann" "555" none none none (some rtConfig)
    "apt-1" "2025-01-06T08:00:00" ⟨[], [], []⟩

/-- Second availability call, on the post-booking state. -/
def rtRun2 : AvailabilityResult :=
  (checkAvailability "b1" "svc" "today" none none (some rtConfig) ⟨2025, 1, 6⟩ 0
    rtBook.state).getD emptyAvailability

/-- The first slot of the second call (10:00 — 09:00 and 09:30 are gone). -/
def rtSlot2 : Slot := rtRun2.slots.getD 0 emptySlot

/-! # Theorems

## C1 — the no-overlap invariant

The spec's invariant fails on the code: the booking-time check compares
only the exact `(business, date, time)` strings, so a second booking 30
minutes into a 60-minute appointment is accepted.  What the operations
do preserve is exact-slot uniqueness. -/

theorem slotClash_false (a b : Appt) :
    slotClash a b = false ↔
      ¬(a.businessId = b.businessId ∧ a.date = b.date ∧ a.time = b.time ∧
        a.status.isActive = true ∧ b.status.isActive = true) := by
  simp [slotClash]

theorem idsNodup_map_of_preserves (f : Appt → Appt) (hf : ∀ x, (f x).id = x.id)
    (l : List Appt) (h : ApptIdsNodup l) : ApptIdsNodup (l.map f) := by
  unfold ApptIdsNodup at h ⊢
  rw [List.map_map]
  have hcomp : (Appt.id ∘ f) = Appt.id := funext hf
  rw [hcomp]
  exact h

theorem uniqueActive_book (b sv sl cn cp : String) (ce ci nt : Option String)
    (cfg : Option BusinessConfig) (nid niso : String) (st : EngineState)
    (hids : ApptIdsNodup st.appts) (hinv : UniqueActiveSlots st.appts) :
    ApptIdsNodup (bookAppointment b sv sl cn cp ce ci nt cfg nid niso st).state.appts ∧
      UniqueActiveSlots (bookAppointment b sv sl cn cp ce ci nt cfg nid niso st).state.appts := by
  unfold bookAppointment
  split
  · exact ⟨hids, hinv⟩
  · rename_i d t sid heq
    dsimp only
    split
    · exact ⟨hids, hinv⟩
    · split
      · exact ⟨hids, hinv⟩
      · rename_i hconf hid
        dsimp only
        constructor
        · unfold ApptIdsNodup at hids ⊢
          rw [List.map_append, List.nodup_append]
          refine ⟨hids, by simp, ?_⟩
          intro x hx
          obtain ⟨a, ha, rfl⟩ := List.mem_map.mp hx
          simp only [List.map_cons, List.map_nil, List.mem_singleton]
          intro hax
          exact hid (List.any_eq_true.mpr ⟨a, ha, by simp [hax]⟩)
        · unfold UniqueActiveSlots at hinv ⊢
          rw [List.pairwise_append]
          refine ⟨hinv, List.pairwise_singleton _ _, ?_⟩
          intro a ha x hx
          simp only [List.mem_singleton] at hx
          subst hx
          simp only [slotClash]
          simp only [decide_eq_false_iff_not, not_and]
          intro hbiz hdate htime hact
          intro _
          exact hconf (List.any_eq_true.mpr ⟨a, ha, by simp [hbiz, hdate, htime, hact]⟩)

theorem cancelUpdate_preserves (a : Appt) (niso : String) (l : List Appt)
    (hids : ApptIdsNodup l) (hinv : UniqueActiveSlots l) :
    ApptIdsNodup (l.map fun x =>
        if x.id = a.id then { x with status := ApptStatus.cancelled, updatedAt := niso }
        else x) ∧
      UniqueActiveSlots (l.map fun x =>
        if x.id = a.id then { x with status := ApptStatus.cancelled, updatedAt := niso }
        else x) := by
  constructor
  · refine idsNodup_map_of_preserves _ ?_ _ hids
    intro x
    by_cases hx : x.id = a.id <;> simp [hx]
  · unfold UniqueActiveSlots at hinv ⊢
    rw [List.pairwise_map]
    refine hinv.imp ?_
    intro u v huv
    rw [slotClash_false] at huv ⊢
    intro hcl
    split_ifs at hcl with hu hv hv
    · obtain ⟨h1, h2, h3, h4, h5⟩ := hcl
      exact absurd (show ApptStatus.cancelled.isActive = true from h4) (by decide)
    · obtain ⟨h1, h2, h3, h4, h5⟩ := hcl
      exact absurd (show ApptStatus.cancelled.isActive = true from h4) (by decide)
    · obtain ⟨h1, h2, h3, h4, h5⟩ := hcl
      exact absurd (show ApptStatus.cancelled.isActive = true from h5) (by decide)
    · exact huv hcl

theorem uniqueActive_cancel (b cp : String) (aid : Option String) (today : Date)
    (niso : String) (st : EngineState)
    (hids : ApptIdsNodup st.appts) (hinv : UniqueActiveSlots st.appts) :
    ApptIdsNodup (cancelAppointment b cp aid today niso st).state.appts ∧
      UniqueActiveSlots (cancelAppointment b cp aid today niso st).state.appts := by
  unfold cancelAppointment
  split <;> (try dsimp only) <;> split <;>
    first
      | exact ⟨hids, hinv⟩
      | exact cancelUpdate_preserves _ _ _ hids hinv

theorem uniqueActive_reschedule (b aid nsl niso : String) (st : EngineState)
    (hids : ApptIdsNodup st.appts) (hinv : UniqueActiveSlots st.appts) :
    ApptIdsNodup (rescheduleAppointment b aid nsl niso st).state.appts ∧
      UniqueActiveSlots (rescheduleAppointment b aid nsl niso st).state.appts := by
  unfold rescheduleAppointment
  split
  · exact ⟨hids, hinv⟩
  · rename_i nd nt nsid heq
    split
    · exact ⟨hids, hinv⟩
    · rename_i m hfind
      split
      · exact ⟨hids, hinv⟩
      · rename_i hconf
        have hm : m ∈ st.appts := List.mem_of_find?_eq_some hfind
        have hmprops := List.find?_some hfind
        simp only [decide_eq_true_eq] at hmprops
        obtain ⟨hmid, hmbiz, hmsched⟩ := hmprops
        simp only [List.any_eq_true, decide_eq_true_eq, not_exists, not_and] at hconf
        constructor
        · refine idsNodup_map_of_preserves _ ?_ _ hids
          intro x
          by_cases hx : x.id = aid <;> simp [hx]
        · unfold UniqueActiveSlots at hinv ⊢
          rw [List.pairwise_map]
          have hnodupPair : st.appts.Pairwise fun x y => x.id ≠ y.id :=
            List.pairwise_map.mp hids
          refine ((hinv.and hnodupPair).imp_of_mem ?_)
          intro u v hu_mem hv_mem huv
          obtain ⟨huv, hune⟩ := huv
          rw [slotClash_false] at huv ⊢
          intro hcl
          split_ifs at hcl with hu hv hv
          · exact hune (hu.trans hv.symm)
          · obtain ⟨h1, h2, h3, h4, h5⟩ := hcl
            have hum : u = m := List.inj_on_of_nodup_map hids hu_mem hm (by rw [hu, hmid])
            refine hconf v hv_mem ?_ ?_ ?_ ?_ h5
            · have h1' : u.businessId = v.businessId := h1
              rw [← h1', hum, hmbiz]
            · exact h2.symm
            · exact h3.symm
            · exact hv
          · obtain ⟨h1, h2, h3, h4, h5⟩ := hcl
            have hvm : v = m := List.inj_on_of_nodup_map hids hv_mem hm (by rw [hv, hmid])
            refine hconf u hu_mem ?_ h2 h3 hu h4
            have h1' : u.businessId = v.businessId := h1
            rw [h1', hvm, hmbiz]
          · exact huv hcl

theorem engineOp_preserves_uniqueActive (op : EngineOp) (st : EngineState)
    (hids : ApptIdsNodup st.appts) (hinv : UniqueActiveSlots st.appts) :
    ApptIdsNodup (op.apply st).appts ∧ UniqueActiveSlots (op.apply st).appts := by
  cases op with
  | book b sv sl cn cp ce ci nt cfg nid niso =>
    exact uniqueActive_book b sv sl cn cp ce ci nt cfg nid niso st hids hinv
  | cancel b cp aid today niso => exact uniqueActive_cancel b cp aid today niso st hids hinv
  | reschedule b aid nsl niso => exact uniqueActive_reschedule b aid nsl niso st hids hinv

/-- **C1** (counterexample).  The claimed no-overlap invariant is *not*
preserved by the engine's operations: from the empty store (which
satisfies it), booking the 09:00 slot of staff `s1` for 60 minutes and
then the 09:30 slot of the same staff and service succeeds, leaving two
scheduled appointments of the same (business, staff, date) whose
`[start, start+duration)` intervals overlap — the booking check compares
the exact time string only. -/
theorem noOverlap_not_preserved_counterexample :
    NoOverlapInv (EngineState.mk [] [] []).appts ∧
    NoOverlapInv (applyOps
        [.book "b1" "svc" "2025-01-06_09:00_s1" "Ann" "111" none none none none "a1" "t0"]
        ⟨[], [], []⟩).appts ∧
    ¬ NoOverlapInv (applyOps
        [.book "b1" "svc" "2025-01-06_09:00_s1" "Ann" "111" none none none none "a1" "t0",
         .book "b1" "svc" "2025-01-06_09:30_s1" "Bob" "222" none none none none "a2" "t1"]
        ⟨[], [], []⟩).appts :=
  ⟨by decide, by decide, by decide⟩

/-- **C1** (amended).  For every sequence of engine operations
(book / cancel / reschedule) started in a state with distinct
appointment ids in which no two non-cancelled / non-no_show appointments
of a business share the exact same (date, time), both properties still
hold after the operations; overlapping-but-distinct start times are not
prevented (see the counterexample). -/
theorem engineOps_preserve_uniqueActiveSlots (ops : List EngineOp) (st : EngineState)
    (hids : ApptIdsNodup st.appts) (hinv : UniqueActiveSlots st.appts) :
    ApptIdsNodup (applyOps ops st).appts ∧ UniqueActiveSlots (applyOps ops st).appts := by
  induction ops generalizing st with
  | nil => exact ⟨hids, hinv⟩
  | cons op rest ih =>
    have hstep := engineOp_preserves_uniqueActive op st hids hinv
    simpa [applyOps] using ih (op.apply st) hstep.1 hstep.2

/-- Witness for the amended C1 theorem at a concrete state and operation
sequence. -/
theorem engineOps_preserve_uniqueActiveSlots_witness :
    ApptIdsNodup (applyOps
        [.book "b1" "svc" "2025-01-06_09:00_s1" "Ann" "111" none none none none "a1" "t0",
         .cancel "b1" "111" (some "a1") ⟨2025, 1, 1⟩ "t2"]
        ⟨[], [], []⟩).appts ∧
      UniqueActiveSlots (applyOps
        [.book "b1" "svc" "2025-01-06_09:00_s1" "Ann" "111" none none none none "a1" "t0",
         .cancel "b1" "111" (some "a1") ⟨2025, 1, 1⟩ "t2"]
        ⟨[], [], []⟩).appts :=
  engineOps_preserve_uniqueActiveSlots
    [.book "b1" "svc" "2025-01-06_09:00_s1" "Ann" "111" none none none none "a1" "t0",
     .cancel "b1" "111" (some "a1") ⟨2025, 1, 1⟩ "t2"]
    ⟨[], [], []⟩ (by decide) (by decide)

/-! ## C2 — the booking-time re-validation

The authoritative check at booking time is *not* the half-open interval
overlap test per staff: it is exact equality of the (business, date,
time) strings, with staff and duration ignored. -/

/-- **C2** (counterexample).  With an existing scheduled 60-minute
09:00 appointment for staff `s1`, booking the same staff's 09:30 slot
for the same 60-minute service must be rejected under the claimed
overlap rule (the intervals [540, 600) and [570, 630) overlap — the
second conjunct states exactly that an existing active appointment of
the same staff overlaps the candidate's interval), yet `book_appointment`
accepts it. -/
theorem book_overlap_not_rejected_counterexample :
    (bookAppointment "b1" "svc" "2025-01-06_09:30_s1" "Bob" "222" none none none none
        "a2" "t1"
        ⟨[⟨"a0", "b1", none, "svc", some "s1", "Ann", "111", none, "2025-01-06", "09:00",
            60, .scheduled, none, "t0", "t0"⟩], [], []⟩).result
      = BookResult.booked "a2" 60 none ∧
    apptsOverlapSameStaff
        ⟨"a0", "b1", none, "svc", some "s1", "Ann", "111", none, "2025-01-06", "09:00",
          60, .scheduled, none, "t0", "t0"⟩
        ⟨"a2", "b1", none, "svc", some "s1", "Bob", "222", none, "2025-01-06", "09:30",
          60, .scheduled, none, "t1", "t1"⟩ = true :=
  ⟨by decide, by decide⟩

/-- **C2** (amended).  When the slot id decodes, `book_appointment`
rejects with the slot-taken error *iff* some existing appointment of the
business with status outside {cancelled, no_show} has exactly the same
date and time strings — any staff, duration ignored, no interval
arithmetic. -/
theorem bookAppointment_slotTaken_iff (b sv sl cn cp : String) (ce ci nt : Option String)
    (cfg : Option BusinessConfig) (nid niso : String) (st : EngineState)
    (d t : String) (sid : Option String)
    (hdec : decodeSlotId sl = some (d, t, sid)) :
    ((bookAppointment b sv sl cn cp ce ci nt cfg nid niso st).result = BookResult.slotTaken ↔
      ∃ a ∈ st.appts,
        a.businessId = b ∧ a.date = d ∧ a.time = t ∧ a.status.isActive = true) := by
  unfold bookAppointment
  rw [hdec]
  dsimp only
  split
  · rename_i hc
    simp only [List.any_eq_true, decide_eq_true_eq] at hc
    exact iff_of_true rfl hc
  · rename_i hc
    simp only [List.any_eq_true, decide_eq_true_eq] at hc
    split
    · exact iff_of_false (by simp) hc
    · exact iff_of_false (by simp) hc

/-- Witness for the amended C2 theorem: a booking attempt on an exactly
taken (date, time) is rejected. -/
theorem bookAppointment_slotTaken_iff_witness :
    decodeSlotId "2025-01-06_09:00_s2" = some ("2025-01-06", "09:00", some "s2") ∧
    ((bookAppointment "b1" "svc" "2025-01-06_09:00_s2" "Bob" "222" none none none none
          "a2" "t1"
          ⟨[⟨"a0", "b1", none, "svc", some "s1", "Ann", "111", none, "2025-01-06", "09:00",
              60, .scheduled, none, "t0", "t0"⟩], [], []⟩).result = BookResult.slotTaken ↔
      ∃ a ∈ (EngineState.mk
          [⟨"a0", "b1", none, "svc", some "s1", "Ann", "111", none, "2025-01-06", "09:00",
              60, .scheduled, none, "t0", "t0"⟩] [] []).appts,
        a.businessId = "b1" ∧ a.date = "2025-01-06" ∧ a.time = "09:00" ∧
          a.status.isActive = true) :=
  ⟨by decide,
    bookAppointment_slotTaken_iff "b1" "svc" "2025-01-06_09:00_s2" "Bob" "222" none none
      none none "a2" "t1"
      ⟨[⟨"a0", "b1", none, "svc", some "s1", "Ann", "111", none, "2025-01-06", "09:00",
          60, .scheduled, none, "t0", "t0"⟩], [], []⟩
      "2025-01-06" "09:00" (some "s2") (by decide)⟩

/-! ## C5 — cancellation and the waitlist matcher

`cancel_appointment` sets the status to cancelled and returns; it never
calls into the waitlist repository (no caller of
`find_waiting_for_service_and_date` or `mark_notified` exists anywhere
in the codebase). -/

/-- **C5** (counterexample).  A cancellation that finds a qualifying
appointment (freed slot `("svc", "2025-01-06", "09:00")`) performs no
waitlist-matcher invocation at all — in particular not with the freed
tuple, as the claim requires. -/
theorem cancel_no_waitlist_counterexample :
    (cancelAppointment "b1" "111" (some "a0") ⟨2025, 1, 1⟩ "t9"
        ⟨[⟨"a0", "b1", none, "svc", some "s1", "Ann", "111", none, "2025-01-06", "09:00",
            60, .scheduled, none, "t0", "t0"⟩], [], []⟩).cancelled = true ∧
    (cancelAppointment "b1" "111" (some "a0") ⟨2025, 1, 1⟩ "t9"
        ⟨[⟨"a0", "b1", none, "svc", some "s1", "Ann", "111", none, "2025-01-06", "09:00",
            60, .scheduled, none, "t0", "t0"⟩], [], []⟩).waitlistCalls = [] ∧
    ("svc", "2025-01-06", "09:00") ∉
      (cancelAppointment "b1" "111" (some "a0") ⟨2025, 1, 1⟩ "t9"
        ⟨[⟨"a0", "b1", none, "svc", some "s1", "Ann", "111", none, "2025-01-06", "09:00",
            60, .scheduled, none, "t0", "t0"⟩], [], []⟩).waitlistCalls :=
  ⟨by decide, by decide, by decide⟩

/-- **C5** (amended).  When `cancel_appointment` finds a qualifying
appointment it sets exactly that appointment's status to cancelled and
returns — it performs no waitlist-matcher invocation; matching is left
to external callers (none exist in the codebase). -/
theorem cancelAppointment_no_waitlist_invocation (b cp : String) (aid : Option String)
    (today : Date) (niso : String) (st : EngineState)
    (h : (cancelAppointment b cp aid today niso st).cancelled = true) :
    (cancelAppointment b cp aid today niso st).waitlistCalls = [] ∧
    ∃ i, (cancelAppointment b cp aid today niso st).apptId = some i ∧
      (cancelAppointment b cp aid today niso st).state.appts =
        st.appts.map fun x =>
          if x.id = i then { x with status := ApptStatus.cancelled, updatedAt := niso }
          else x := by
  unfold cancelAppointment at h ⊢
  dsimp only at h ⊢
  split at h
  · simp at h
  · rename_i a heq
    simp only [heq]
    exact ⟨trivial, a.id, rfl, rfl⟩

/-- Witness for the amended C5 theorem. -/
theorem cancelAppointment_no_waitlist_invocation_witness :
    (cancelAppointment "b1" "111" (some "a1") ⟨2025, 1, 1⟩ "t9"
        ⟨[⟨"a1", "b1", none, "svc", none, "Ann", "111", none, "2025-01-07", "10:00",
            30, .scheduled, none, "t0", "t0"⟩], [], []⟩).cancelled = true ∧
    ((cancelAppointment "b1" "111" (some "a1") ⟨2025, 1, 1⟩ "t9"
        ⟨[⟨"a1", "b1", none, "svc", none, "Ann", "111", none, "2025-01-07", "10:00",
            30, .scheduled, none, "t0", "t0"⟩], [], []⟩).waitlistCalls = [] ∧
    ∃ i, (cancelAppointment "b1" "111" (some "a1") ⟨2025, 1, 1⟩ "t9"
        ⟨[⟨"a1", "b1", none, "svc", none, "Ann", "111", none, "2025-01-07", "10:00",
            30, .scheduled, none, "t0", "t0"⟩], [], []⟩).apptId = some i ∧
      (cancelAppointment "b1" "111" (some "a1") ⟨2025, 1, 1⟩ "t9"
        ⟨[⟨"a1", "b1", none, "svc", none, "Ann", "111", none, "2025-01-07", "10:00",
            30, .scheduled, none, "t0", "t0"⟩], [], []⟩).state.appts =
        [⟨"a1", "b1", none, "svc", none, "Ann", "111", none, "2025-01-07", "10:00",
            30, .scheduled, none, "t0", "t0"⟩].map fun x =>
          if x.id = i then { x with status := ApptStatus.cancelled, updatedAt := "t9" }
          else x) :=
  ⟨by decide,
    cancelAppointment_no_waitlist_invocation "b1" "111" (some "a1") ⟨2025, 1, 1⟩ "t9"
      ⟨[⟨"a1", "b1", none, "svc", none, "Ann", "111", none, "2025-01-07", "10:00",
          30, .scheduled, none, "t0", "t0"⟩], [], []⟩ (by decide)⟩

/-! ## C6 — pending-notification uniqueness

`mark_notified` has no status guard and no uniqueness check: a second
call on an already-notified entry inserts a second pending notification
and reports success. -/

/-- **C6** (counterexample).  Entry `w1` is already notified with one
pending notification; calling `mark_notified` again returns `true` (not
a no-op error) and leaves *two* pending notifications for `w1`. -/
theorem markNotified_second_pending_counterexample :
    (WaitlistState.mk
        [⟨"w1", "b1", none, "svc", "Cara", "555", [], [], "phone", .notified, none,
            "c0", "c0"⟩]
        [⟨"n1", "w1", some "a0", "t0", .pending, none, false⟩]).entries.all
        (fun e => e.status = WaitlistStatus.notified) = true ∧
    pendingCountFor "w1"
        (WaitlistState.mk
          [⟨"w1", "b1", none, "svc", "Cara", "555", [], [], "phone", .notified, none,
              "c0", "c0"⟩]
          [⟨"n1", "w1", some "a0", "t0", .pending, none, false⟩]).notifications = 1 ∧
    (markNotified "w1" (some "a9") "n2" "t2"
        (WaitlistState.mk
          [⟨"w1", "b1", none, "svc", "Cara", "555", [], [], "phone", .notified, none,
              "c0", "c0"⟩]
          [⟨"n1", "w1", some "a0", "t0", .pending, none, false⟩])).1 = true ∧
    pendingCountFor "w1"
        (markNotified "w1" (some "a9") "n2" "t2"
          (WaitlistState.mk
            [⟨"w1", "b1", none, "svc", "Cara", "555", [], [], "phone", .notified, none,
                "c0", "c0"⟩]
            [⟨"n1", "w1", some "a0", "t0", .pending, none, false⟩])).2.notifications = 2 :=
  ⟨by decide, by decide, by decide, by decide⟩

/-- **C6** (amended).  Whenever a truthy cancelled-appointment id is
supplied, `mark_notified` reports success, unconditionally re-marks the
entry notified, and inserts one more pending notification — regardless
of the entry's current status or of existing pending notifications, so
several pending notifications per entry can accumulate. -/
theorem markNotified_always_inserts_pending (wid : String) (cid : Option String)
    (nid niso : String) (st : WaitlistState) (hc : truthyOpt cid = true) :
    (markNotified wid cid nid niso st).1 = true ∧
    pendingCountFor wid (markNotified wid cid nid niso st).2.notifications =
      pendingCountFor wid st.notifications + 1 ∧
    ∀ e ∈ (markNotified wid cid nid niso st).2.entries,
      e.id = wid → e.status = WaitlistStatus.notified := by
  unfold markNotified
  rw [if_pos hc]
  refine ⟨rfl, ?_, ?_⟩
  · unfold pendingCountFor
    rw [List.filter_append, List.length_append]
    simp
  · intro e he hid
    dsimp only at he
    obtain ⟨x, hx, rfl⟩ := List.mem_map.mp he
    by_cases hxe : x.id = wid
    · simp [hxe]
    · rw [if_neg hxe] at hid
      exact absurd hid hxe

/-- Witness for the amended C6 theorem on the counterexample state. -/
theorem markNotified_always_inserts_pending_witness :
    truthyOpt (some "a9") = true ∧
    ((markNotified "w1" (some "a9") "n2" "t2"
        (WaitlistState.mk
          [⟨"w1", "b1", none, "svc", "Cara", "555", [], [], "phone", .notified, none,
              "c0", "c0"⟩]
          [⟨"n1", "w1", some "a0", "t0", .pending, none, false⟩])).1 = true ∧
    pendingCountFor "w1"
        (markNotified "w1" (some "a9") "n2" "t2"
          (WaitlistState.mk
            [⟨"w1", "b1", none, "svc", "Cara", "555", [], [], "phone", .notified, none,
                "c0", "c0"⟩]
            [⟨"n1", "w1", some "a0", "t0", .pending, none, false⟩])).2.notifications =
      pendingCountFor "w1"
        (WaitlistState.mk
          [⟨"w1", "b1", none, "svc", "Cara", "555", [], [], "phone", .notified, none,
              "c0", "c0"⟩]
          [⟨"n1", "w1", some "a0", "t0", .pending, none, false⟩]).notifications + 1 ∧
    ∀ e ∈ (markNotified "w1" (some "a9") "n2" "t2"
        (WaitlistState.mk
          [⟨"w1", "b1", none, "svc", "Cara", "555", [], [], "phone", .notified, none,
              "c0", "c0"⟩]
          [⟨"n1", "w1", some "a0", "t0", .pending, none, false⟩])).2.entries,
      e.id = "w1" → e.status = WaitlistStatus.notified) :=
  ⟨by decide,
    markNotified_always_inserts_pending "w1" (some "a9") "n2" "t2"
      (WaitlistState.mk
        [⟨"w1", "b1", none, "svc", "Cara", "555", [], [], "phone", .notified, none,
            "c0", "c0"⟩]
        [⟨"n1", "w1", some "a0", "t0", .pending, none, false⟩]) (by decide)⟩

/-! ## C7 — waitlist candidate search

Order lemmas for SQL string comparison, then the behaviour of
`find_waiting_for_service_and_date`. -/

theorem natBeq_true_iff (a b : Nat) : Nat.beq a b = true ↔ a = b :=
  ⟨Nat.eq_of_beq_eq_true, fun h => by subst h; exact Nat.beq_refl a⟩

theorem natBlt_true_iff (a b : Nat) : Nat.blt a b = true ↔ a < b := by
  simp [Nat.blt_eq]

theorem charsLe_total : ∀ (a b : List Char), charsLe a b = true ∨ charsLe b a = true := by
  intro a
  induction a with
  | nil => intro b; left; simp [charsLe]
  | cons x xs ih =>
    intro b
    cases b with
    | nil => right; simp [charsLe]
    | cons y ys =>
      simp only [charsLe, Bool.or_eq_true, Bool.and_eq_true, natBlt_true_iff, natBeq_true_iff]
      rcases Nat.lt_trichotomy x.toNat y.toNat with h | h | h
      · left
        exact Or.inl h
      · rcases ih ys with hr | hr
        · exact Or.inl (Or.inr ⟨h, hr⟩)
        · exact Or.inr (Or.inr ⟨h.symm, hr⟩)
      · right
        exact Or.inl h
  
theorem charsLe_trans :
    ∀ (a b c : List Char), charsLe a b = true → charsLe b c = true → charsLe a c = true := by
  intro a
  induction a with
  | nil => intro b c _ _; simp [charsLe]
  | cons x xs ih =>
    intro b c hab hbc
    cases b with
    | nil => simp [charsLe] at hab
    | cons y ys =>
      cases c with
      | nil => simp [charsLe] at hbc
      | cons z zs =>
        simp only [charsLe, Bool.or_eq_true, Bool.and_eq_true, natBlt_true_iff,
          natBeq_true_iff] at hab hbc ⊢
        rcases hab with hab | ⟨hab, hab2⟩ <;> rcases hbc with hbc | ⟨hbc, hbc2⟩
        · exact Or.inl (by omega)
        · exact Or.inl (by omega)
        · exact Or.inl (by omega)
        · exact Or.inr ⟨by omega, ih ys zs hab2 hbc2⟩

theorem strLeB_total (a b : String) : strLeB a b = true ∨ strLeB b a = true :=
  charsLe_total a.toList b.toList

theorem strLeB_trans (a b c : String) (h1 : strLeB a b = true) (h2 : strLeB b c = true) :
    strLeB a c = true :=
  charsLe_trans a.toList b.toList c.toList h1 h2

theorem sortByCreatedAt_sorted (l : List WEntry) :
    (sortByCreatedAt l).Pairwise fun a b => strLeB a.createdAt b.createdAt = true := by
  unfold sortByCreatedAt
  haveI : IsTotal WEntry createdLe :=
    ⟨fun a b => strLeB_total a.createdAt b.createdAt⟩
  haveI : IsTrans WEntry createdLe :=
    ⟨fun a b c => strLeB_trans a.createdAt b.createdAt c.createdAt⟩
  exact List.sorted_insertionSort createdLe l

theorem mem_sortByCreatedAt (e : WEntry) (l : List WEntry) :
    e ∈ sortByCreatedAt l ↔ e ∈ l := by
  unfold sortByCreatedAt
  exact List.mem_insertionSort createdLe

/-- **C7**.  `find_waiting_for_service_and_date` returns only waiting
entries of the business and service whose `preferred_dates` is empty or
contains the freed date; with no (truthy) time preference it returns
exactly those entries; the result is always ordered by `created_at`
ascending (first-come-first-served); and when a time preference is
supplied and entries exist, a non-empty time-filtered list is returned
as-is while an empty filter result falls back to the first 3 unfiltered
candidates. -/
theorem findWaiting_spec (b sv dt : String) (tp : Option String) (entries : List WEntry) :
    (∀ e ∈ findWaitingForServiceAndDate b sv dt tp entries,
        e ∈ entries ∧ waitlistEligible b sv dt e = true) ∧
    (truthyOpt tp = false →
      ∀ e, e ∈ findWaitingForServiceAndDate b sv dt tp entries ↔
        e ∈ entries ∧ waitlistEligible b sv dt e = true) ∧
    (findWaitingForServiceAndDate b sv dt tp entries).Pairwise
      (fun a b' => strLeB a.createdAt b'.createdAt = true) ∧
    (truthyOpt tp = true →
      sortByCreatedAt (entries.filter (waitlistEligible b sv dt)) ≠ [] →
      (((sortByCreatedAt (entries.filter (waitlistEligible b sv dt))).filter
          (entryMatchesTimePref (tp.getD "")) = [] →
        findWaitingForServiceAndDate b sv dt tp entries =
          (sortByCreatedAt (entries.filter (waitlistEligible b sv dt))).take 3) ∧
      ((sortByCreatedAt (entries.filter (waitlistEligible b sv dt))).filter
          (entryMatchesTimePref (tp.getD "")) ≠ [] →
        findWaitingForServiceAndDate b sv dt tp entries =
          (sortByCreatedAt (entries.filter (waitlistEligible b sv dt))).filter
            (entryMatchesTimePref (tp.getD ""))))) := by
  refine ⟨?_, ?_, ?_, ?_⟩
  · intro e he
    unfold findWaitingForServiceAndDate at he
    dsimp only at he
    split_ifs at he with h1 h2
    · rw [List.mem_filter] at he
      have := (mem_sortByCreatedAt e _).mp he.1
      rw [List.mem_filter] at this
      exact this
    · have := (mem_sortByCreatedAt e _).mp (List.mem_of_mem_take he)
      rw [List.mem_filter] at this
      exact this
    · have := (mem_sortByCreatedAt e _).mp he
      rw [List.mem_filter] at this
      exact this
  · intro htp e
    unfold findWaitingForServiceAndDate
    dsimp only
    rw [if_neg (by simp [htp])]
    rw [mem_sortByCreatedAt, List.mem_filter]
  · unfold findWaitingForServiceAndDate
    dsimp only
    split_ifs with h1 h2
    · exact (sortByCreatedAt_sorted _).filter _
    · exact (sortByCreatedAt_sorted _).sublist (List.take_sublist _ _)
    · exact sortByCreatedAt_sorted _
  · intro htp hne
    constructor
    · intro hfil
      unfold findWaitingForServiceAndDate
      dsimp only
      rw [if_pos (by exact ⟨htp, hne⟩), if_neg (by simp [hfil])]
    · intro hfil
      unfold findWaitingForServiceAndDate
      dsimp only
      rw [if_pos (by exact ⟨htp, hne⟩), if_pos hfil]

/-- Witness for C7: three entries created in order A, B, C (with B, C
stored out of order) come back in creation order, and the theorem's
ordering clause applies to the concrete call. -/
theorem findWaiting_spec_witness :
    findWaitingForServiceAndDate "b1" "svc" "2025-01-06" none
        [⟨"wB", "b1", none, "svc", "B", "2", [], [], "phone", .waiting, none, "t2", "t2"⟩,
         ⟨"wA", "b1", none, "svc", "A", "1", ["2025-01-06"], [], "phone", .waiting, none,
            "t1", "t1"⟩,
         ⟨"wC", "b1", none, "svc", "C", "3", [], [], "phone", .waiting, none, "t3", "t3"⟩] =
      [⟨"wA", "b1", none, "svc", "A", "1", ["2025-01-06"], [], "phone", .waiting, none,
          "t1", "t1"⟩,
       ⟨"wB", "b1", none, "svc", "B", "2", [], [], "phone", .waiting, none, "t2", "t2"⟩,
       ⟨"wC", "b1", none, "svc", "C", "3", [], [], "phone", .waiting, none, "t3", "t3"⟩] ∧
    (findWaitingForServiceAndDate "b1" "svc" "2025-01-06" none
        [⟨"wB", "b1", none, "svc", "B", "2", [], [], "phone", .waiting, none, "t2", "t2"⟩,
         ⟨"wA", "b1", none, "svc", "A", "1", ["2025-01-06"], [], "phone", .waiting, none,
            "t1", "t1"⟩,
         ⟨"wC", "b1", none, "svc", "C", "3", [], [], "phone", .waiting, none, "t3",
            "t3"⟩]).Pairwise
      (fun a b' => strLeB a.createdAt b'.createdAt = true) :=
  ⟨by decide,
    (findWaiting_spec "b1" "svc" "2025-01-06" none
        [⟨"wB", "b1", none, "svc", "B", "2", [], [], "phone", .waiting, none, "t2", "t2"⟩,
         ⟨"wA", "b1", none, "svc", "A", "1", ["2025-01-06"], [], "phone", .waiting, none,
            "t1", "t1"⟩,
         ⟨"wC", "b1", none, "svc", "C", "3", [], [], "phone", .waiting, none, "t3",
            "t3"⟩]).2.2.1⟩


/-! ## C8 — slot-id decoding

`slot_id.split('_')` round-trips the ids the slot generator produces
(dates and times contain no underscore; staff ids are assumed
underscore-free, non-empty and distinct from the `'any'` sentinel, which
holds for the uuid ids the repository generates), and a string with no
underscore fails with the invalid-slot error before any insert. -/

theorem splitCh_of_not_mem (sep : Char) (a : List Char) (ha : sep ∉ a) :
    splitCh sep a = [a] := by
  induction a with
  | nil => rfl
  | cons c cs ih =>
    have hc : c ≠ sep := fun h => ha (by simp [h])
    have hcs : sep ∉ cs := fun h => ha (List.mem_cons_of_mem _ h)
    unfold splitCh
    rw [ih hcs]
    simp [hc]

theorem splitCh_append_sep (sep : Char) (a rest : List Char) (ha : sep ∉ a) :
    splitCh sep (a ++ sep :: rest) = a :: splitCh sep rest := by
  induction a with
  | nil =>
    simp only [List.nil_append]
    conv_lhs => rw [splitCh]
    simp
  | cons c cs ih =>
    have hc : c ≠ sep := fun h => ha (by simp [h])
    have hcs : sep ∉ cs := fun h => ha (List.mem_cons_of_mem _ h)
    simp only [List.cons_append]
    conv_lhs => rw [splitCh]
    rw [ih hcs]
    simp [hc]

theorem digitChar10_toNat (n : Nat) : (digitChar10 n).toNat = 48 + n % 10 := by
  unfold digitChar10
  have h : n % 10 < 10 := Nat.mod_lt _ (by omega)
  generalize hg : n % 10 = m at h ⊢
  interval_cases m <;> rfl

theorem underscore_not_mem_fmtHMChars (t : Nat) : '_' ∉ fmtHMChars t := by
  unfold fmtHMChars pad2Chars
  intro h
  simp only [List.cons_append, List.nil_append, List.mem_cons, List.not_mem_nil,
    or_false, List.mem_append] at h
  rcases h with h | h | h | h | h <;>
    first
      | (have h2 := congrArg Char.toNat h
         rw [digitChar10_toNat] at h2
         rw [show ('_').toNat = 95 from rfl] at h2
         omega)
      | exact absurd h (by decide)

theorem decode_mkSlot_id (dateStr : String) (tm : Nat) (sid sname : Option String)
    (dur : Nat) (hd : '_' ∉ dateStr.toList)
    (hs : match sid with
          | some s => s ≠ "" ∧ s ≠ "any" ∧ '_' ∉ s.toList
          | none => True) :
    decodeSlotId (mkSlot dateStr tm sid sname dur).id = some (dateStr, fmtHM tm, sid) := by
  unfold mkSlot slotIdStr decodeSlotId
  have hrw : (String.mk (dateStr.toList ++ '_' :: fmtHMChars tm ++ '_' ::
      (staffOrAny sid).toList)).toList =
      dateStr.toList ++ '_' :: (fmtHMChars tm ++ '_' :: (staffOrAny sid).toList) := by
    simp [String.toList]
  rw [hrw, splitCh_append_sep _ _ _ hd,
    splitCh_append_sep _ _ _ (underscore_not_mem_fmtHMChars tm)]
  cases sid with
  | none =>
    rw [show staffOrAny none = "any" from rfl]
    rw [splitCh_of_not_mem _ _ (by decide)]
    simp [fmtHM]
  | some s =>
    obtain ⟨hne, hany, hmem⟩ := hs
    rw [show staffOrAny (some s) = s from by
      unfold staffOrAny
      dsimp only
      rw [if_neg (by simpa [String.isEmpty_iff] using hne)]]
    rw [splitCh_of_not_mem _ _ hmem]
    simp only []
    have hmk : String.mk s.toList = s := rfl
    rw [hmk]
    simp [fmtHM, hany]

/-- **C8**.  (i) A slot id that does not decode (fewer than two
`'_'`-separated parts) makes `book_appointment` return the invalid-slot
error with the state unchanged — no insert happens.  (ii) A decodable id
never yields the invalid-slot error.  (iii) Every id built by the slot
generator decodes back to exactly its (date, time, staff) triple. -/
theorem book_slotId_decoding (b sv sl cn cp : String) (ce ci nt : Option String)
    (cfg : Option BusinessConfig) (nid niso : String) (st : EngineState) :
    (decodeSlotId sl = none →
      bookAppointment b sv sl cn cp ce ci nt cfg nid niso st =
        ⟨BookResult.invalidSlot, st⟩) ∧
    (∀ (d t : String) (sid : Option String),
      decodeSlotId sl = some (d, t, sid) →
      (bookAppointment b sv sl cn cp ce ci nt cfg nid niso st).result ≠
        BookResult.invalidSlot) ∧
    (∀ (dateStr : String) (tm : Nat) (sid sname : Option String) (dur : Nat),
      '_' ∉ dateStr.toList →
      (match sid with
       | some s => s ≠ "" ∧ s ≠ "any" ∧ '_' ∉ s.toList
       | none => True) →
      decodeSlotId (mkSlot dateStr tm sid sname dur).id = some (dateStr, fmtHM tm, sid)) := by
  refine ⟨?_, ?_, ?_⟩
  · intro hdec
    unfold bookAppointment
    rw [hdec]
  · intro d t sid hdec
    unfold bookAppointment
    rw [hdec]
    dsimp only
    split
    · simp
    · split <;> simp
  · intro dateStr tm sid sname dur hd hs
    exact decode_mkSlot_id dateStr tm sid sname dur hd hs

/-- Witness for C8: a concrete malformed id and a concrete generated
slot id. -/
theorem book_slotId_decoding_witness :
    decodeSlotId "garbage" = none ∧
    bookAppointment "b1" "svc" "garbage" "A" "1" none none none none "x" "t" ⟨[], [], []⟩ =
      ⟨BookResult.invalidSlot, ⟨[], [], []⟩⟩ ∧
    decodeSlotId (mkSlot "2025-01-06" 540 (some "s1") (some "Ann") 60).id =
      some ("2025-01-06", fmtHM 540, some "s1") :=
  ⟨by decide,
    (book_slotId_decoding "b1" "svc" "garbage" "A" "1" none none none none "x" "t"
      ⟨[], [], []⟩).1 (by decide),
    (book_slotId_decoding "b1" "svc" "garbage" "A" "1" none none none none "x" "t"
      ⟨[], [], []⟩).2.2 "2025-01-06" 540 (some "s1") (some "Ann") 60 (by decide) (by decide)⟩

/-! ## C3 / C4 — slot generation bounds

A full characterisation of the slots `generate_time_slots` emits: starts
on the 30-minute grid from `max(openHour, prefStart)`, ending by
`min(closeHour, prefEnd)` (whole hours — the minute components of the
configured times are dropped, and the preference end caps the slot end),
not in the past for today, and conflict-free. -/

theorem slotLoop_mem_iff (dateStr : String) (isToday : Bool) (nowMin dur : Nat)
    (booked : List BookedRow) (staffId staffName : Option String) (endT : Nat) :
    ∀ (fuel cur : Nat), endT + 1 ≤ cur + fuel →
      ∀ (L : List Slot),
        slotLoop dateStr isToday nowMin dur booked staffId staffName endT fuel cur = some L →
        ∀ sl, (sl ∈ L ↔ ∃ k, sl = mkSlot dateStr (cur + 30 * k) staffId staffName dur ∧
          cur + 30 * k + dur ≤ endT ∧
          ¬(isToday = true ∧ cur + 30 * k ≤ nowMin) ∧
          scanBooked (cur + 30 * k) (cur + 30 * k + dur) staffId booked = some false) := by
  intro fuel
  induction fuel with
  | zero =>
    intro cur hb L hL sl
    unfold slotLoop at hL
    obtain rfl : [] = L := Option.some.inj hL
    simp only [List.not_mem_nil, false_iff, not_exists, not_and]
    intro k hsl hle
    omega
  | succ fuel ih =>
    intro cur hb L hL sl
    unfold slotLoop at hL
    split at hL
    · rename_i hcond
      split at hL
      · rename_i hpast
        have hiff := ih (cur + 30) (by omega) L hL sl
        rw [hiff]
        constructor
        · rintro ⟨k, hsl, h1, h2, h3⟩
          refine ⟨k + 1, ?_, by omega, ?_, ?_⟩
          · rw [hsl]; congr 1; omega
          · have : cur + 30 + 30 * k = cur + 30 * (k + 1) := by omega
            rw [this] at h2; exact h2
          · have : cur + 30 + 30 * k = cur + 30 * (k + 1) := by omega
            rw [this] at h3; exact h3
        · rintro ⟨k, hsl, h1, h2, h3⟩
          cases k with
          | zero =>
            exfalso
            simp only [Nat.mul_zero, Nat.add_zero] at h2
            exact h2 hpast
          | succ j =>
            refine ⟨j, ?_, by omega, ?_, ?_⟩
            · rw [hsl]; congr 1; omega
            · have : cur + 30 * (j + 1) = cur + 30 + 30 * j := by omega
              rw [this] at h2; exact h2
            · have : cur + 30 * (j + 1) = cur + 30 + 30 * j := by omega
              rw [this] at h3; exact h3
      · rename_i hpast
        split at hL
        · exact absurd hL (by simp)
        · rename_i hscan
          have hiff := ih (cur + 30) (by omega) L hL sl
          rw [hiff]
          constructor
          · rintro ⟨k, hsl, h1, h2, h3⟩
            refine ⟨k + 1, ?_, by omega, ?_, ?_⟩
            · rw [hsl]; congr 1; omega
            · have : cur + 30 + 30 * k = cur + 30 * (k + 1) := by omega
              rw [this] at h2; exact h2
            · have : cur + 30 + 30 * k = cur + 30 * (k + 1) := by omega
              rw [this] at h3; exact h3
          · rintro ⟨k, hsl, h1, h2, h3⟩
            cases k with
            | zero =>
              exfalso
              simp only [Nat.mul_zero, Nat.add_zero] at h3
              rw [hscan] at h3
              exact absurd (Option.some.inj h3) (by decide)
            | succ j =>
              refine ⟨j, ?_, by omega, ?_, ?_⟩
              · rw [hsl]; congr 1; omega
              · have : cur + 30 * (j + 1) = cur + 30 + 30 * j := by omega
                rw [this] at h2; exact h2
              · have : cur + 30 * (j + 1) = cur + 30 + 30 * j := by omega
                rw [this] at h3; exact h3
        · rename_i hscan
          obtain ⟨L2, hL2, rfl⟩ : ∃ L2, slotLoop dateStr isToday nowMin dur booked staffId
              staffName endT fuel (cur + 30) = some L2 ∧
              mkSlot dateStr cur staffId staffName dur :: L2 = L := by
            cases hrec : slotLoop dateStr isToday nowMin dur booked staffId staffName endT
                fuel (cur + 30) with
            | none => rw [hrec] at hL; exact absurd hL (by simp)
            | some L2 =>
              rw [hrec] at hL
              exact ⟨L2, rfl, Option.some.inj hL⟩
          have hiff := ih (cur + 30) (by omega) L2 hL2 sl
          simp only [List.mem_cons, hiff]
          constructor
          · rintro (rfl | ⟨k, hsl, h1, h2, h3⟩)
            · refine ⟨0, by simp, by omega, ?_, ?_⟩
              · simpa using hpast
              · simpa using hscan
            · refine ⟨k + 1, ?_, by omega, ?_, ?_⟩
              · rw [hsl]; congr 1; omega
              · have : cur + 30 + 30 * k = cur + 30 * (k + 1) := by omega
                rw [this] at h2; exact h2
              · have : cur + 30 + 30 * k = cur + 30 * (k + 1) := by omega
                rw [this] at h3; exact h3
          · rintro ⟨k, hsl, h1, h2, h3⟩
            cases k with
            | zero =>
              left
              simpa using hsl
            | succ j =>
              right
              refine ⟨j, ?_, by omega, ?_, ?_⟩
              · rw [hsl]; congr 1; omega
              · have : cur + 30 * (j + 1) = cur + 30 + 30 * j := by omega
                rw [this] at h2; exact h2
              · have : cur + 30 * (j + 1) = cur + 30 + 30 * j := by omega
                rw [this] at h3; exact h3
    · rename_i hcond
      obtain rfl : [] = L := Option.some.inj hL
      simp only [List.not_mem_nil, false_iff, not_exists, not_and]
      intro k hsl hle
      omega

theorem generateTimeSlots_mem_iff (dateStr : String) (isToday : Bool) (nowMin dur : Nat)
    (bh : String × String) (tS tE : Nat) (booked : List BookedRow)
    (staffId staffName : Option String) (o cl : Nat) (L : List Slot)
    (ho : parseHM bh.1 = some o) (hcl : parseHM bh.2 = some cl)
    (hgen : generateTimeSlots dateStr isToday nowMin dur bh tS tE booked staffId staffName =
      some L) :
    ∀ sl, sl ∈ L ↔ ∃ k,
      sl = mkSlot dateStr (max (o / 60) tS * 60 + 30 * k) staffId staffName dur ∧
      max (o / 60) tS * 60 + 30 * k + dur ≤ min (cl / 60) tE * 60 ∧
      ¬(isToday = true ∧ max (o / 60) tS * 60 + 30 * k ≤ nowMin) ∧
      scanBooked (max (o / 60) tS * 60 + 30 * k) (max (o / 60) tS * 60 + 30 * k + dur)
        staffId booked = some false := by
  unfold generateTimeSlots at hgen
  rw [ho, hcl] at hgen
  dsimp only at hgen
  split at hgen
  · exact absurd hgen (by simp)
  · exact slotLoop_mem_iff dateStr isToday nowMin dur booked staffId staffName
      (min (cl / 60) tE * 60) (min (cl / 60) tE * 60 + 1) (max (o / 60) tS * 60)
      (by omega) L hgen

/-- **C3** (amended).  Every slot satisfies `start + duration <= close`
(including minute components of the close time) and, for today,
`start > now`; but the open bound only holds with the open time
truncated to the whole hour: `(open/60)*60 <= start`.  When the business
opens on a half hour (e.g. 09:30) a slot may begin before opening (see
the counterexample). -/
theorem generateTimeSlots_slot_bounds (dateStr : String) (isToday : Bool)
    (nowMin dur : Nat) (bh : String × String) (tS tE : Nat) (booked : List BookedRow)
    (staffId staffName : Option String) (o cl : Nat) (L : List Slot)
    (ho : parseHM bh.1 = some o) (hcl : parseHM bh.2 = some cl)
    (hgen : generateTimeSlots dateStr isToday nowMin dur bh tS tE booked staffId staffName =
      some L) :
    ∀ sl ∈ L, (o / 60) * 60 ≤ sl.timeMin ∧ sl.timeMin + dur ≤ cl ∧
      (isToday = true → nowMin < sl.timeMin) ∧
      sl.durationMinutes = dur ∧ sl.time = fmtHM sl.timeMin ∧ sl.date = dateStr := by
  intro sl hsl
  obtain ⟨k, hmk, hle, hpast, hscan⟩ :=
    (generateTimeSlots_mem_iff dateStr isToday nowMin dur bh tS tE booked staffId staffName
      o cl L ho hcl hgen sl).mp hsl
  subst hmk
  unfold mkSlot
  dsimp only
  have hdiv : cl / 60 * 60 ≤ cl := Nat.div_mul_le_self cl 60
  refine ⟨by omega, by omega, ?_, rfl, rfl, rfl⟩
  intro htoday
  by_contra hle2
  exact hpast ⟨htoday, by omega⟩


/-- **C3** (counterexample).  With business hours 09:30–17:00 (open
`570` minutes), no preference, and a 60-minute service, the generator
returns a slot starting 09:00 (`540`) — before opening — because only
`open_time.hour` is used. -/
theorem slot_before_open_counterexample :
    parseHM "09:30" = some 570 ∧
    (generateTimeSlots "2025-01-06" false 0 60 ("09:30", "17:00") 9 18 [] none none).isSome
      = true ∧
    (∃ sl ∈ (generateTimeSlots "2025-01-06" false 0 60 ("09:30", "17:00") 9 18 []
        none none).getD [],
      sl.timeMin = 540 ∧ sl.timeMin + sl.durationMinutes ≤ 1020 ∧ sl.timeMin < 570) :=
  ⟨by decide, by decide, by decide⟩

/-- Witness for the amended C3 theorem: hours 09:00–17:30, 60-minute
service, no booked rows. -/
theorem generateTimeSlots_slot_bounds_witness :
    parseHM "09:00" = some 540 ∧ parseHM "17:30" = some 1050 ∧
    (generateTimeSlots "2025-01-06" false 0 60 ("09:00", "17:30") 9 18 [] none none =
      some ((generateTimeSlots "2025-01-06" false 0 60 ("09:00", "17:30") 9 18 []
        none none).getD [])) ∧
    ∀ sl ∈ (generateTimeSlots "2025-01-06" false 0 60 ("09:00", "17:30") 9 18 []
        none none).getD [],
      540 / 60 * 60 ≤ sl.timeMin ∧ sl.timeMin + 60 ≤ 1050 ∧
        (false = true → 0 < sl.timeMin) ∧
        sl.durationMinutes = 60 ∧ sl.time = fmtHM sl.timeMin ∧ sl.date = "2025-01-06" :=
  ⟨by decide, by decide, by decide,
    generateTimeSlots_slot_bounds "2025-01-06" false 0 60 ("09:00", "17:30") 9 18 []
      none none 540 1050
      ((generateTimeSlots "2025-01-06" false 0 60 ("09:00", "17:30") 9 18 []
        none none).getD [])
      (by decide) (by decide) (by decide)⟩

/-- **C4** (counterexample).  With preference "morning" (window
`[9, 12)`) and closing time 17:00, the candidate 11:30 (`690`) lies in
the preference window, sits on the 30-minute grid (`540 + 30*5`), and a
60-minute service starting there ends 12:30 ≤ close — so under the
claim it must be accepted — yet no returned slot starts at 11:30: the
generator caps slot ends at the *preference* end (12:00), not the
closing time. -/
theorem pref_window_slot_excluded_counterexample :
    parseTimePreference (some "morning") = (9, 12) ∧
    parseHM "17:00" = some 1020 ∧
    540 + 30 * 5 = 690 ∧ (9 * 60 ≤ 690 ∧ 690 < 12 * 60) ∧ 690 + 60 ≤ 1020 ∧
    (generateTimeSlots "2025-01-06" false 0 60 ("09:00", "17:00") 9 12 [] none none).isSome
      = true ∧
    (∀ sl ∈ (generateTimeSlots "2025-01-06" false 0 60 ("09:00", "17:00") 9 12 []
        none none).getD [], sl.timeMin ≠ 690) :=
  ⟨by decide, by decide, by decide, by decide, by decide, by decide, by decide⟩

/-- **C4** (amended).  A candidate start is accepted iff it lies on the
30-minute grid from `max(openHour, prefStart)`, ends by
`min(closeHour, prefEnd)` in whole hours — i.e. the acceptance bound
*is* the narrower preference bound (hour-truncated), not the business
closing time — is not in the past for today, and has no conflict.  (For
the spec's own example, preference "after 5pm" with a 20:00 close, the
two bounds coincide, so 18:30 + 90min is accepted and 19:00 + 90min is
not.) -/
theorem generateTimeSlots_accepts_iff (dateStr : String) (isToday : Bool) (nowMin dur : Nat)
    (bh : String × String) (tS tE : Nat) (booked : List BookedRow)
    (staffId staffName : Option String) (o cl : Nat) (L : List Slot)
    (ho : parseHM bh.1 = some o) (hcl : parseHM bh.2 = some cl)
    (hgen : generateTimeSlots dateStr isToday nowMin dur bh tS tE booked staffId staffName =
      some L) :
    ∀ sl, sl ∈ L ↔ ∃ k,
      sl = mkSlot dateStr (max (o / 60) tS * 60 + 30 * k) staffId staffName dur ∧
      max (o / 60) tS * 60 + 30 * k + dur ≤ min (cl / 60) tE * 60 ∧
      ¬(isToday = true ∧ max (o / 60) tS * 60 + 30 * k ≤ nowMin) ∧
      scanBooked (max (o / 60) tS * 60 + 30 * k) (max (o / 60) tS * 60 + 30 * k + dur)
        staffId booked = some false :=
  generateTimeSlots_mem_iff dateStr isToday nowMin dur bh tS tE booked staffId staffName
    o cl L ho hcl hgen

/-- Witness for the amended C4 theorem: the "after 5pm" example of the
claim, close 20:00, 90-minute service — 18:30 is accepted, 19:00 is
not. -/
theorem generateTimeSlots_accepts_iff_witness :
    parseHM "09:00" = some 540 ∧ parseHM "20:00" = some 1200 ∧
    (generateTimeSlots "2025-01-06" false 0 90 ("09:00", "20:00") 17 20 [] none none =
      some ((generateTimeSlots "2025-01-06" false 0 90 ("09:00", "20:00") 17 20 []
        none none).getD [])) ∧
    (∀ sl, sl ∈ (generateTimeSlots "2025-01-06" false 0 90 ("09:00", "20:00") 17 20 []
        none none).getD [] ↔ ∃ k,
      sl = mkSlot "2025-01-06" (max (540 / 60) 17 * 60 + 30 * k) none none 90 ∧
      max (540 / 60) 17 * 60 + 30 * k + 90 ≤ min (1200 / 60) 20 * 60 ∧
      ¬(false = true ∧ max (540 / 60) 17 * 60 + 30 * k ≤ 0) ∧
      scanBooked (max (540 / 60) 17 * 60 + 30 * k) (max (540 / 60) 17 * 60 + 30 * k + 90)
        none [] = some false) ∧
    (∃ sl ∈ (generateTimeSlots "2025-01-06" false 0 90 ("09:00", "20:00") 17 20 []
        none none).getD [], sl.timeMin = 1110) ∧
    (∀ sl ∈ (generateTimeSlots "2025-01-06" false 0 90 ("09:00", "20:00") 17 20 []
        none none).getD [], sl.timeMin ≠ 1140) :=
  ⟨by decide, by decide, by decide,
    generateTimeSlots_accepts_iff "2025-01-06" false 0 90 ("09:00", "20:00") 17 20 []
      none none 540 1200
      ((generateTimeSlots "2025-01-06" false 0 90 ("09:00", "20:00") 17 20 []
        none none).getD [])
      (by decide) (by decide) (by decide),
    by decide, by decide⟩

/-! ## C10 — the 20-slot result cap -/

/-- **C10**.  Whenever `check_availability` returns, its slot list is
exactly the first 20 entries of the full generated list (`allSlotsFor`,
which concatenates days in range order and staff pool order within a
day, each day's slots in time order) — hence at most 20 slots — and the
`calendar_ui_data` aggregates (`available_dates`, `time_slots`) are
computed from the truncated list, so dates and times whose availability
lies wholly beyond the first 20 slots are omitted, while `min_date` and
`max_date` echo the parsed range. -/
theorem checkAvailability_truncates (b sv dr : String) (tp sid : Option String)
    (cfg : Option BusinessConfig) (today : Date) (nowMin : Nat) (st : EngineState)
    (r : AvailabilityResult)
    (h : checkAvailability b sv dr tp sid cfg today nowMin st = some r) :
    ∃ all,
      allSlotsFor cfg
          (dateRangeList (parseDateRange dr today).1 (parseDateRange dr today).2) today
          nowMin (serviceDuration cfg sv) (parseTimePreference tp).1
          (parseTimePreference tp).2
          (fetchApptsInRange b (fmtDate (parseDateRange dr today).1)
            (fmtDate (parseDateRange dr today).2) st.appts)
          (availableStaffPool b sv sid st.staff) = some all ∧
      r.slots = all.take 20 ∧
      r.slots.length ≤ 20 ∧
      (∀ d, d ∈ r.calendarUiData.availableDates ↔ ∃ sl ∈ r.slots, sl.date = d) ∧
      (∀ t, t ∈ r.calendarUiData.timeSlots ↔ ∃ sl ∈ r.slots, sl.time = t) ∧
      r.calendarUiData.minDate = fmtDate (parseDateRange dr today).1 ∧
      r.calendarUiData.maxDate = fmtDate (parseDateRange dr today).2 := by
  unfold checkAvailability at h
  dsimp only at h
  cases hall : allSlotsFor cfg
      (dateRangeList (parseDateRange dr today).1 (parseDateRange dr today).2) today
      nowMin (serviceDuration cfg sv) (parseTimePreference tp).1
      (parseTimePreference tp).2
      (fetchApptsInRange b (fmtDate (parseDateRange dr today).1)
        (fmtDate (parseDateRange dr today).2) st.appts)
      (availableStaffPool b sv sid st.staff) with
  | none =>
    rw [hall] at h
    exact absurd h (by simp)
  | some all =>
    rw [hall] at h
    obtain rfl := (Option.some.inj h).symm
    refine ⟨all, rfl, rfl, ?_, ?_, ?_, rfl, rfl⟩
    · simpa using Nat.min_le_left 20 all.length
    · intro d
      rw [List.mem_dedup, List.mem_map]
    · intro t
      rw [List.mem_dedup, List.mem_map]

/-- Witness for C10: a week of default business hours exceeds 20 slots,
and the aggregates cover only the first 20. -/
theorem checkAvailability_truncates_witness :
    checkAvailability "b1" "svc" "this week" none none none ⟨2025, 1, 6⟩ 480 ⟨[], [], []⟩ =
      some ((checkAvailability "b1" "svc" "this week" none none none ⟨2025, 1, 6⟩ 480
        ⟨[], [], []⟩).getD ⟨[], "", "", ⟨"", "", [], []⟩⟩) ∧
    ∃ all,
      allSlotsFor none
          (dateRangeList (parseDateRange "this week" ⟨2025, 1, 6⟩).1
            (parseDateRange "this week" ⟨2025, 1, 6⟩).2) ⟨2025, 1, 6⟩
          480 (serviceDuration none "svc") (parseTimePreference none).1
          (parseTimePreference none).2
          (fetchApptsInRange "b1" (fmtDate (parseDateRange "this week" ⟨2025, 1, 6⟩).1)
            (fmtDate (parseDateRange "this week" ⟨2025, 1, 6⟩).2) ([] : List Appt))
          (availableStaffPool "b1" "svc" none []) = some all ∧
      ((checkAvailability "b1" "svc" "this week" none none none ⟨2025, 1, 6⟩ 480
        ⟨[], [], []⟩).getD ⟨[], "", "", ⟨"", "", [], []⟩⟩).slots = all.take 20 ∧
      ((checkAvailability "b1" "svc" "this week" none none none ⟨2025, 1, 6⟩ 480
        ⟨[], [], []⟩).getD ⟨[], "", "", ⟨"", "", [], []⟩⟩).slots.length ≤ 20 ∧
      (∀ d, d ∈ ((checkAvailability "b1" "svc" "this week" none none none ⟨2025, 1, 6⟩ 480
          ⟨[], [], []⟩).getD ⟨[], "", "", ⟨"", "", [], []⟩⟩).calendarUiData.availableDates ↔
        ∃ sl ∈ ((checkAvailability "b1" "svc" "this week" none none none ⟨2025, 1, 6⟩ 480
          ⟨[], [], []⟩).getD ⟨[], "", "", ⟨"", "", [], []⟩⟩).slots, sl.date = d) ∧
      (∀ t, t ∈ ((checkAvailability "b1" "svc" "this week" none none none ⟨2025, 1, 6⟩ 480
          ⟨[], [], []⟩).getD ⟨[], "", "", ⟨"", "", [], []⟩⟩).calendarUiData.timeSlots ↔
        ∃ sl ∈ ((checkAvailability "b1" "svc" "this week" none none none ⟨2025, 1, 6⟩ 480
          ⟨[], [], []⟩).getD ⟨[], "", "", ⟨"", "", [], []⟩⟩).slots, sl.time = t) ∧
      ((checkAvailability "b1" "svc" "this week" none none none ⟨2025, 1, 6⟩ 480
        ⟨[], [], []⟩).getD ⟨[], "", "", ⟨"", "", [], []⟩⟩).calendarUiData.minDate =
        fmtDate (parseDateRange "this week" ⟨2025, 1, 6⟩).1 ∧
      ((checkAvailability "b1" "svc" "this week" none none none ⟨2025, 1, 6⟩ 480
        ⟨[], [], []⟩).getD ⟨[], "", "", ⟨"", "", [], []⟩⟩).calendarUiData.maxDate =
        fmtDate (parseDateRange "this week" ⟨2025, 1, 6⟩).2 :=
  ⟨by decide,
    checkAvailability_truncates "b1" "svc" "this week" none none none ⟨2025, 1, 6⟩ 480
      ⟨[], [], []⟩
      ((checkAvailability "b1" "svc" "this week" none none none ⟨2025, 1, 6⟩ 480
        ⟨[], [], []⟩).getD ⟨[], "", "", ⟨"", "", [], []⟩⟩) (by decide)⟩

theorem charsLe_cons (a b : Char) (as bs : List Char) :
    charsLe (a :: as) (b :: bs) =
      (Nat.blt a.toNat b.toNat || (Nat.beq a.toNat b.toNat && charsLe as bs)) := rfl

theorem charsLt_cons (a b : Char) (as bs : List Char) :
    charsLt (a :: as) (b :: bs) =
      (Nat.blt a.toNat b.toNat || (Nat.beq a.toNat b.toNat && charsLt as bs)) := rfl

theorem charsLe_eqlen_append :
    ∀ (xs ys xs' ys' : List Char), xs.length = ys.length →
      (charsLe (xs ++ xs') (ys ++ ys') = true ↔
        (charsLt xs ys = true ∨
          (xs.map Char.toNat = ys.map Char.toNat ∧ charsLe xs' ys' = true))) := by
  intro xs
  induction xs with
  | nil =>
    intro ys xs' ys' hlen
    obtain rfl : ys = [] := by
      cases ys with
      | nil => rfl
      | cons y ys => simp at hlen
    simp [charsLt]
  | cons x xs ih =>
    intro ys xs' ys' hlen
    cases ys with
    | nil => simp at hlen
    | cons y ys =>
      simp only [List.length_cons, Nat.add_right_cancel_iff] at hlen
      simp only [List.cons_append, charsLe_cons, charsLt_cons, Bool.or_eq_true,
        Bool.and_eq_true, natBlt_true_iff, natBeq_true_iff, List.map_cons,
        List.cons.injEq]
      rw [ih ys xs' ys' hlen]
      constructor
      · rintro (h | ⟨heq, hlt | ⟨hmap, hle⟩⟩)
        · exact Or.inl (Or.inl h)
        · exact Or.inl (Or.inr ⟨heq, hlt⟩)
        · exact Or.inr ⟨⟨heq, hmap⟩, hle⟩
      · rintro ((h | ⟨heq, hlt⟩) | ⟨⟨heq, hmap⟩, hle⟩)
        · exact Or.inl h
        · exact Or.inr ⟨heq, Or.inl hlt⟩
        · exact Or.inr ⟨heq, Or.inr ⟨hmap, hle⟩⟩

theorem pad4_lt_iff (x y : Nat) (hx : x ≤ 9999) (hy : y ≤ 9999) :
    (charsLt (pad4Chars x) (pad4Chars y) = true ↔ x < y) := by
  unfold pad4Chars
  simp only [charsLt_cons, show ∀ a b : Char, charsLt [a] [b] =
    (Nat.blt a.toNat b.toNat || (Nat.beq a.toNat b.toNat && charsLt [] [])) from
      fun a b => rfl, show charsLt ([] : List Char) [] = false from rfl,
    Bool.or_eq_true, Bool.and_eq_true, natBlt_true_iff, natBeq_true_iff,
    digitChar10_toNat, show (false = true) = False from by simp, and_false, or_false]
  constructor
  · rintro (h | ⟨e3, h | ⟨e2, h | ⟨e1, h⟩⟩⟩) <;> omega
  · intro h
    have hx1 : x = 1000 * (x / 1000 % 10) + 100 * (x / 100 % 10)
        + 10 * (x / 10 % 10) + x % 10 := by omega
    have hy1 : y = 1000 * (y / 1000 % 10) + 100 * (y / 100 % 10)
        + 10 * (y / 10 % 10) + y % 10 := by omega
    omega

theorem pad4_eqmap_iff (x y : Nat) (hx : x ≤ 9999) (hy : y ≤ 9999) :
    ((pad4Chars x).map Char.toNat = (pad4Chars y).map Char.toNat ↔ x = y) := by
  unfold pad4Chars
  simp only [List.map_cons, List.map_nil, List.cons.injEq, and_true, digitChar10_toNat]
  omega

theorem pad2_lt_iff (x y : Nat) (hx : x ≤ 99) (hy : y ≤ 99) :
    (charsLt (pad2Chars x) (pad2Chars y) = true ↔ x < y) := by
  unfold pad2Chars
  simp only [charsLt_cons, show ∀ a b : Char, charsLt [a] [b] =
    (Nat.blt a.toNat b.toNat || (Nat.beq a.toNat b.toNat && charsLt [] [])) from
      fun a b => rfl, show charsLt ([] : List Char) [] = false from rfl,
    Bool.or_eq_true, Bool.and_eq_true, natBlt_true_iff, natBeq_true_iff,
    digitChar10_toNat, show (false = true) = False from by simp, and_false, or_false]
  omega

theorem pad2_eqmap_iff (x y : Nat) (hx : x ≤ 99) (hy : y ≤ 99) :
    ((pad2Chars x).map Char.toNat = (pad2Chars y).map Char.toNat ↔ x = y) := by
  unfold pad2Chars
  simp only [List.map_cons, List.map_nil, List.cons.injEq, and_true, digitChar10_toNat]
  omega

theorem pad2_le_iff (x y : Nat) (hx : x ≤ 99) (hy : y ≤ 99) :
    (charsLe (pad2Chars x) (pad2Chars y) = true ↔ x ≤ y) := by
  unfold pad2Chars
  simp only [charsLe_cons, show charsLe ([] : List Char) [] = true from rfl,
    Bool.or_eq_true, Bool.and_eq_true, natBlt_true_iff, natBeq_true_iff,
    digitChar10_toNat, and_true]
  omega

theorem dateChars_le_iff (c1 c2 : Date)
    (h1y : c1.y ≤ 9999) (h1m : c1.m ≤ 99) (h1d : c1.d ≤ 99)
    (h2y : c2.y ≤ 9999) (h2m : c2.m ≤ 99) (h2d : c2.d ≤ 99) :
    (charsLe (dateChars c1) (dateChars c2) = true ↔ c1.key ≤ c2.key) := by
  unfold dateChars
  rw [charsLe_eqlen_append _ _ _ _ (by simp [pad4Chars])]
  rw [show ∀ (r1 r2 : List Char), charsLe ('-' :: r1) ('-' :: r2) = charsLe r1 r2 from
    fun r1 r2 => by
      rw [charsLe_cons]
      simp [Nat.beq_refl, Nat.blt_eq]]
  rw [charsLe_eqlen_append _ _ _ _ (by simp [pad2Chars])]
  rw [show ∀ (r1 r2 : List Char), charsLe ('-' :: r1) ('-' :: r2) = charsLe r1 r2 from
    fun r1 r2 => by
      rw [charsLe_cons]
      simp [Nat.beq_refl, Nat.blt_eq]]
  rw [pad4_lt_iff _ _ h1y h2y, pad4_eqmap_iff _ _ h1y h2y,
    pad2_lt_iff _ _ h1m h2m, pad2_eqmap_iff _ _ h1m h2m, pad2_le_iff _ _ h1d h2d]
  unfold Date.key
  omega

theorem daysInMonth_pos (y m : Nat) : 1 ≤ daysInMonth y m := by
  unfold daysInMonth
  split_ifs <;> omega

theorem daysInMonth_le_31 (y m : Nat) : daysInMonth y m ≤ 31 := by
  unfold daysInMonth
  split_ifs <;> omega

theorem Date.Valid.next {c : Date} (h : c.Valid) : c.next.Valid := by
  obtain ⟨h1, h2, h3, h4⟩ := h
  unfold Date.next Date.Valid
  split_ifs <;> dsimp only <;>
    exact ⟨by omega, by omega, by omega,
      by first | omega | exact daysInMonth_pos _ _⟩

theorem Date.key_lt_next {c : Date} (h : c.Valid) : c.key < c.next.key := by
  obtain ⟨h1, h2, h3, h4⟩ := h
  have h31 := daysInMonth_le_31 c.y c.m
  unfold Date.next
  split_ifs with hd hm <;> simp only [Date.key] <;> omega

theorem Date.Valid.addDays {c : Date} (h : c.Valid) (n : Nat) : (c.addDays n).Valid := by
  induction n with
  | zero => exact h
  | succ n ih => exact ih.next

theorem Date.y_next_le (c : Date) : c.next.y ≤ c.y + 1 := by
  unfold Date.next
  split_ifs <;> simp <;> omega

theorem Date.y_addDays_le (c : Date) (n : Nat) : (c.addDays n).y ≤ c.y + n := by
  induction n with
  | zero => simp [Date.addDays]
  | succ n ih =>
    have := Date.y_next_le (c.addDays n)
    unfold Date.addDays
    omega

theorem mem_dateRangeListF :
    ∀ (fuel : Nat) (s fin c : Date), c ∈ dateRangeListF fuel s fin →
      c.Valid ∧ s.key ≤ c.key ∧ c.key ≤ fin.key := by
  intro fuel
  induction fuel with
  | zero => intro s fin c hc; simp [dateRangeListF] at hc
  | succ fuel ih =>
    intro s fin c hc
    unfold dateRangeListF at hc
    split at hc
    · rename_i hcond
      obtain ⟨hv, hk⟩ := hcond
      rcases List.mem_cons.mp hc with rfl | hc
      · exact ⟨hv, Nat.le_refl _, hk⟩
      · obtain ⟨hcv, hk1, hk2⟩ := ih s.next fin c hc
        exact ⟨hcv, le_of_lt (lt_of_lt_of_le (Date.key_lt_next hv) hk1), hk2⟩
    · simp at hc

theorem mem_dateRangeList {s fin c : Date} (hc : c ∈ dateRangeList s fin) :
    c.Valid ∧ s.key ≤ c.key ∧ c.key ≤ fin.key :=
  mem_dateRangeListF _ s fin c hc

theorem digitChar10_isDigit (n : Nat) : (digitChar10 n).isDigit = true := by
  unfold digitChar10
  have h : n % 10 < 10 := Nat.mod_lt _ (by omega)
  generalize hg : n % 10 = m at h ⊢
  interval_cases m <;> rfl

theorem colon_not_mem_pad2 (n : Nat) : ':' ∉ pad2Chars n := by
  unfold pad2Chars
  intro h
  simp only [List.mem_cons, List.not_mem_nil, or_false] at h
  rcases h with h | h <;>
    (have h2 := congrArg Char.toNat h
     rw [digitChar10_toNat] at h2
     rw [show (':').toNat = 58 from rfl] at h2
     omega)

theorem allDigits_pad2 (n : Nat) : allDigits (pad2Chars n) = true := by
  simp [allDigits, pad2Chars, digitChar10_isDigit]

theorem digitsVal_pad2 (n : Nat) (h : n ≤ 99) : digitsVal (pad2Chars n) = n := by
  unfold digitsVal pad2Chars
  simp only [List.foldl_cons, List.foldl_nil, digitChar10_toNat]
  omega

theorem parseHM_fmtHM (t : Nat) (h : t < 1440) : parseHM (fmtHM t) = some t := by
  unfold parseHM fmtHM fmtHMChars
  have hsplit : splitCh ':' (pad2Chars (t / 60) ++ ':' :: pad2Chars (t % 60)) =
      [pad2Chars (t / 60), pad2Chars (t % 60)] := by
    rw [splitCh_append_sep _ _ _ (colon_not_mem_pad2 _),
      splitCh_of_not_mem _ _ (colon_not_mem_pad2 _)]
  rw [show (String.mk (pad2Chars (t / 60) ++ ':' :: pad2Chars (t % 60))).toList =
      pad2Chars (t / 60) ++ ':' :: pad2Chars (t % 60) from rfl, hsplit]
  have hd1 : t / 60 ≤ 99 := by omega
  have hd2 : t % 60 ≤ 99 := by omega
  dsimp only
  rw [if_pos]
  · rw [digitsVal_pad2 _ hd1, digitsVal_pad2 _ hd2, if_pos (by omega)]
    congr 1
    omega
  · refine ⟨allDigits_pad2 _, allDigits_pad2 _, by simp [pad2Chars], by simp [pad2Chars],
      by simp [pad2Chars], by simp [pad2Chars]⟩

theorem fmtHM_inj {t1 t2 : Nat} (h1 : t1 < 1440) (h2 : t2 < 1440)
    (h : fmtHM t1 = fmtHM t2) : t1 = t2 := by
  have := parseHM_fmtHM t1 h1
  rw [h, parseHM_fmtHM t2 h2] at this
  exact (Option.some.inj this).symm

theorem underscore_not_mem_dateChars (c : Date) : '_' ∉ dateChars c := by
  unfold dateChars pad4Chars pad2Chars
  intro h
  simp only [List.cons_append, List.nil_append, List.mem_cons, List.not_mem_nil,
    or_false] at h
  rcases h with h | h | h | h | h | h | h | h | h | h <;>
    first
      | (have h2 := congrArg Char.toNat h
         rw [digitChar10_toNat] at h2
         rw [show ('_').toNat = 95 from rfl] at h2
         omega)
      | exact absurd h (by decide)

/-! ## C9 — booking round-trip: further helpers -/

theorem isDigit_toNat_le (c : Char) (h : c.isDigit = true) :
    48 ≤ c.toNat ∧ c.toNat ≤ 57 := by
  simp [Char.isDigit] at h
  obtain ⟨h1, h2⟩ := h
  exact ⟨h1, h2⟩

theorem mapM_flatten_mem {α β : Type} (f : α → Option (List β)) :
    ∀ (l : List α) (ll : List (List β)), l.mapM f = some ll →
      ∀ x, x ∈ ll.flatten → ∃ a ∈ l, ∃ ys, f a = some ys ∧ x ∈ ys := by
  intro l
  induction l with
  | nil =>
    intro ll h x hx
    rw [List.mapM_nil] at h
    obtain rfl : ([] : List (List β)) = ll := Option.some.inj h
    simp at hx
  | cons a l ih =>
    intro ll h x hx
    rw [List.mapM_cons] at h
    cases hfa : f a with
    | none => rw [hfa] at h; simp at h
    | some ys =>
      rw [hfa] at h
      cases hrest : l.mapM f with
      | none => rw [hrest] at h; simp at h
      | some yss =>
        rw [hrest] at h
        simp at h
        subst h
        rw [List.flatten_cons] at hx
        rcases List.mem_append.mp hx with hx | hx
        · exact ⟨a, List.mem_cons_self a l, ys, hfa, hx⟩
        · obtain ⟨b, hb, zs, hzs, hxz⟩ := ih yss hrest x hx
          exact ⟨b, List.mem_cons_of_mem a hb, zs, hzs, hxz⟩

theorem digitsVal_foldl_le :
    ∀ (cs : List Char) (a : Nat), allDigits cs = true →
      List.foldl (fun a c => a * 10 + (c.toNat - 48)) a cs ≤ (a + 1) * 10 ^ cs.length - 1 := by
  intro cs
  induction cs with
  | nil => intro a _; simp
  | cons c cs ih =>
    intro a hall
    simp only [allDigits, List.all_cons, Bool.and_eq_true] at hall
    obtain ⟨hc, hrest⟩ := hall
    have hd := isDigit_toNat_le c hc
    have hind := ih (a * 10 + (c.toNat - 48)) (by simpa [allDigits] using hrest)
    simp only [List.foldl_cons, List.length_cons]
    have hpow : 1 ≤ 10 ^ cs.length := Nat.one_le_pow _ _ (by omega)
    have hmul : (a * 10 + (c.toNat - 48) + 1) * 10 ^ cs.length ≤
        (a + 1) * 10 ^ (cs.length + 1) := by
      rw [pow_succ]
      calc (a * 10 + (c.toNat - 48) + 1) * 10 ^ cs.length
          ≤ ((a + 1) * 10) * 10 ^ cs.length := Nat.mul_le_mul_right _ (by omega)
        _ = (a + 1) * (10 ^ cs.length * 10) := by ring
    omega

theorem digitsVal_le_9999 (cs : List Char) (h : allDigits cs = true) (hlen : cs.length ≤ 4) :
    digitsVal cs ≤ 9999 := by
  have hfold := digitsVal_foldl_le cs 0 h
  have hpow : (10 : Nat) ^ cs.length ≤ 10 ^ 4 := Nat.pow_le_pow_right (by omega) hlen
  have h4 : (10 : Nat) ^ 4 = 10000 := by norm_num
  unfold digitsVal
  omega

theorem parseHM_lt {s : String} {t : Nat} (h : parseHM s = some t) : t < 1440 := by
  unfold parseHM at h
  split at h
  · dsimp only at h
    split_ifs at h with h1 h2
    · obtain ⟨hh, hm⟩ := h2
      have ht := Option.some.inj h
      omega
  · exact absurd h (by simp)

theorem parseDate_valid {s : String} {c : Date} (h : parseDate s = some c) :
    c.Valid ∧ c.y ≤ 9999 := by
  unfold parseDate at h
  split at h
  · rename_i ys ms ds heq
    dsimp only at h
    split_ifs at h with h1 h2
    · obtain ⟨hys, hms, hds, hy0, hm0, hd0, hylen, hmlen, hdlen⟩ := h1
      obtain rfl : (⟨digitsVal ys, digitsVal ms, digitsVal ds⟩ : Date) = c :=
        Option.some.inj h
      exact ⟨h2.2, digitsVal_le_9999 ys hys hylen⟩
  · exact absurd h (by simp)

theorem date_bounds_of_valid {c : Date} (h : c.Valid) : c.m ≤ 99 ∧ c.d ≤ 99 := by
  obtain ⟨h1, h2, h3, h4⟩ := h
  have := daysInMonth_le_31 c.y c.m
  omega

set_option maxHeartbeats 1000000 in
theorem parseDateRange_bounds (dr : String) (today : Date) (hv : today.Valid)
    (hy : today.y ≤ 9900) :
    ((parseDateRange dr today).1.Valid ∧ (parseDateRange dr today).1.y ≤ 9999) ∧
      ((parseDateRange dr today).2.Valid ∧ (parseDateRange dr today).2.y ≤ 9999) := by
  unfold parseDateRange
  dsimp only
  have hself : today.Valid ∧ today.y ≤ 9999 := ⟨hv, by omega⟩
  have hYle : ∀ n : Nat, n ≤ 30 → (today.addDays n).y ≤ 9999 := by
    intro n hn
    have := Date.y_addDays_le today n
    omega
  split_ifs with h1 h2 h3 h4 h5 h6 h7 <;> try dsimp only
  · exact ⟨hself, hself⟩
  · exact ⟨⟨hv.addDays 1, hYle 1 (by omega)⟩, ⟨hv.addDays 1, hYle 1 (by omega)⟩⟩
  · exact ⟨hself, ⟨hv.addDays 7, hYle 7 (by omega)⟩⟩
  · exact ⟨⟨hv.addDays 7, hYle 7 (by omega)⟩, ⟨hv.addDays 14, hYle 14 (by omega)⟩⟩
  · exact ⟨hself, ⟨hv.addDays 30, hYle 30 (by omega)⟩⟩
  · split
    · split
      all_goals try dsimp only
      all_goals first
        | (rename_i d0 d1 hd0 hd1
           exact ⟨parseDate_valid hd0, parseDate_valid hd1⟩)
        | exact ⟨hself, ⟨hv.addDays 7, hYle 7 (by omega)⟩⟩
    · try dsimp only
      exact ⟨hself, ⟨hv.addDays 7, hYle 7 (by omega)⟩⟩
  · split
    all_goals try dsimp only
    all_goals first
      | (rename_i d hd
         exact ⟨parseDate_valid hd, parseDate_valid hd⟩)
      | exact ⟨hself, ⟨hv.addDays 7, hYle 7 (by omega)⟩⟩
  · split
    all_goals try dsimp only
    all_goals first
      | (rename_i d hd
         exact ⟨parseDate_valid hd, parseDate_valid hd⟩)
      | exact ⟨hself, ⟨hv.addDays 7, hYle 7 (by omega)⟩⟩

theorem scanBooked_false_same_staff (s e : Nat) (sid : Option String) :
    ∀ (rows : List BookedRow) (r : BookedRow) (t : Nat),
      scanBooked s e sid rows = some false → r ∈ rows → r.staffId = sid →
      parseHM r.time = some t → overlapB s e t (t + r.durationMinutes) = false := by
  intro rows
  induction rows with
  | nil => intro r t _ hmem _ _; simp at hmem
  | cons b bs ih =>
    intro r t hscan hmem hst hpt
    unfold scanBooked at hscan
    split at hscan
    · rename_i hskip
      rcases List.mem_cons.mp hmem with rfl | hmem'
      · exact absurd hst.symm hskip.2.2
      · exact ih r t hscan hmem' hst hpt
    · split at hscan
      · exact Option.noConfusion hscan
      · rename_i t' hpt'
        split_ifs at hscan with hov
        · exact absurd hscan (by simp)
        · rcases List.mem_cons.mp hmem with rfl | hmem'
          · have htt : t = t' := by
              rw [hpt] at hpt'
              exact Option.some.inj hpt'
            subst htt
            exact Bool.eq_false_iff.mpr hov
          · exact ih r t hscan hmem' hst hpt

theorem generateTimeSlots_parses {dateStr : String} {isToday : Bool} {nowMin dur : Nat}
    {bh : String × String} {tS tE : Nat} {booked : List BookedRow}
    {staffId staffName : Option String} {L : List Slot}
    (h : generateTimeSlots dateStr isToday nowMin dur bh tS tE booked staffId staffName =
      some L) :
    ∃ o cl, parseHM bh.1 = some o ∧ parseHM bh.2 = some cl := by
  unfold generateTimeSlots at h
  split at h
  · rename_i o cl ho hcl
    exact ⟨o, cl, ho, hcl⟩
  · exact absurd h (by simp)

theorem bookAppointment_booked_state
    (b sv sl cn cp : String) (ce ci nt : Option String) (cfg : Option BusinessConfig)
    (nid niso : String) (st : EngineState) (d tmS : String) (sid : Option String)
    (hdec : decodeSlotId sl = some (d, tmS, sid))
    (hres : ∃ cid dm sn, (bookAppointment b sv sl cn cp ce ci nt cfg nid niso st).result =
      BookResult.booked cid dm sn) :
    (bookAppointment b sv sl cn cp ce ci nt cfg nid niso st).state.staff = st.staff ∧
    ∃ a : Appt,
      (bookAppointment b sv sl cn cp ce ci nt cfg nid niso st).state.appts =
        st.appts ++ [a] ∧
      a.businessId = b ∧ a.date = d ∧ a.time = tmS ∧ a.staffId = sid ∧
      a.durationMinutes = serviceDuration cfg sv ∧ a.status = ApptStatus.scheduled := by
  obtain ⟨cid, dm, sn, hres⟩ := hres
  unfold bookAppointment at hres ⊢
  rw [hdec] at hres ⊢
  dsimp only at hres ⊢
  split_ifs at hres ⊢
  all_goals first
    | exact ⟨rfl, _, rfl, rfl, rfl, rfl, rfl, rfl, rfl⟩
    | exact absurd hres (by simp)

theorem checkAvailability_mem_slots
    (b sv dr : String) (tp sidArg : Option String) (cfg : Option BusinessConfig)
    (today : Date) (nowMin : Nat) (st : EngineState) (r : AvailabilityResult)
    (h : checkAvailability b sv dr tp sidArg cfg today nowMin st = some r)
    (s : Slot) (hs : s ∈ r.slots) :
    ∃ c ∈ dateRangeList (parseDateRange dr today).1 (parseDateRange dr today).2,
      ∃ p ∈ availableStaffPool b sv sidArg st.staff,
        ∃ bh, getBusinessHoursForDay (cfg.getD ⟨[], []⟩) (weekdayName c) = some bh ∧
        ∃ L, generateTimeSlots (fmtDate c) (c = today) nowMin (serviceDuration cfg sv) bh
            (parseTimePreference tp).1 (parseTimePreference tp).2
            (bookedRowsFor (fmtDate c)
              (fetchApptsInRange b (fmtDate (parseDateRange dr today).1)
                (fmtDate (parseDateRange dr today).2) st.appts)) p.1 p.2 = some L ∧
          s ∈ L := by
  unfold checkAvailability at h
  dsimp only at h
  rw [Option.map_eq_some'] at h
  obtain ⟨all, hall, hr⟩ := h
  subst hr
  have hs' : s ∈ all := List.mem_of_mem_take hs
  unfold allSlotsFor at hall
  rw [Option.map_eq_some'] at hall
  obtain ⟨ll, hll, hflat⟩ := hall
  subst hflat
  obtain ⟨c, hc, ys, hys, hsys⟩ := mapM_flatten_mem _ _ ll hll s hs'
  refine ⟨c, hc, ?_⟩
  unfold daySlotsFor at hys
  split at hys
  · rename_i hbh
    obtain rfl : ([] : List Slot) = ys := Option.some.inj hys
    simp at hsys
  · rename_i bh hbh
    rw [Option.map_eq_some'] at hys
    obtain ⟨ll2, hll2, hflat2⟩ := hys
    subst hflat2
    obtain ⟨p, hp, L, hL, hsL⟩ := mapM_flatten_mem _ _ ll2 hll2 s hsys
    exact ⟨p, hp, bh, hbh, L, hL, hsL⟩

/-- **C9** (confirmed, under natural well-formedness side conditions).
Booking round-trip: if `check_availability` returns a slot `s`, booking
`s.id` succeeds, and `check_availability` is re-run with the same
arguments on the post-booking state, then no returned slot carries the
same `(date, time, staff)` identity as `s`.  Side conditions: `today` is
a real calendar date with year ≤ 9900 (`datetime`'s working range here),
the resolved service duration is positive, and `s`'s staff id — a
`uuid4` in every stored row — is not `''`/`'any'` and has no `'_'`
(otherwise the id would not decode back to the same staff). -/
theorem checkAvailability_book_roundtrip
    (b sv dr cn cp : String) (tp sidArg ce ci nt : Option String)
    (cfg : Option BusinessConfig) (today : Date) (nowMin : Nat) (st : EngineState)
    (newId nowIso cid : String) (dm : Nat) (sn : Option String)
    (r1 r2 : AvailabilityResult) (s s2 : Slot)
    (h1 : checkAvailability b sv dr tp sidArg cfg today nowMin st = some r1)
    (hs : s ∈ r1.slots)
    (hr : (bookAppointment b sv s.id cn cp ce ci nt cfg newId nowIso st).result =
      BookResult.booked cid dm sn)
    (h2 : checkAvailability b sv dr tp sidArg cfg today nowMin
      (bookAppointment b sv s.id cn cp ce ci nt cfg newId nowIso st).state = some r2)
    (htv : today.Valid) (hty : today.y ≤ 9900)
    (hdur : 1 ≤ serviceDuration cfg sv)
    (hstaff : ∀ x : String, s.staffId = some x → x ≠ "" ∧ x ≠ "any" ∧ '_' ∉ x.toList)
    (hs2 : s2 ∈ r2.slots) :
    ¬(s2.date = s.date ∧ s2.time = s.time ∧ s2.staffId = s.staffId) := by
  rintro ⟨hdate, htime, hstf⟩
  -- decompose the first availability run around `s`
  obtain ⟨c, hcmem, p, hp, bh, hbh, L, hgen, hsL⟩ :=
    checkAvailability_mem_slots b sv dr tp sidArg cfg today nowMin st r1 h1 s hs
  obtain ⟨o, cl, ho, hcl⟩ := generateTimeSlots_parses hgen
  obtain ⟨k, hmk, hle, hpast, hscan⟩ :=
    (generateTimeSlots_mem_iff _ _ _ _ _ _ _ _ _ _ o cl L ho hcl hgen s).mp hsL
  set t := max (o / 60) (parseTimePreference tp).1 * 60 + 30 * k with ht
  have hsdate : s.date = fmtDate c := by rw [hmk]; rfl
  have hstime : s.time = fmtHM t := by rw [hmk]; rfl
  have hsid : s.staffId = p.1 := by rw [hmk]; rfl
  have hclt : cl < 1440 := parseHM_lt hcl
  have htlt : t < 1440 := by
    have hmin : min (cl / 60) (parseTimePreference tp).2 * 60 ≤ cl / 60 * 60 :=
      Nat.mul_le_mul_right 60 (Nat.min_le_left _ _)
    have h60 : cl / 60 * 60 ≤ cl := Nat.div_mul_le_self cl 60
    omega
  -- the booked slot id decodes back to (date, time, staff)
  have hmatch : (match p.1 with
      | some x => x ≠ "" ∧ x ≠ "any" ∧ '_' ∉ x.toList
      | none => True) := by
    cases hp1 : p.1 with
    | none => trivial
    | some x => exact hstaff x (hsid.trans hp1)
  have hdec : decodeSlotId s.id = some (fmtDate c, fmtHM t, p.1) := by
    rw [hmk]
    exact decode_mkSlot_id (fmtDate c) t p.1 p.2 _ (underscore_not_mem_dateChars c) hmatch
  -- the successful booking appends exactly one active appointment at (date, time)
  obtain ⟨hstaffeq, a, happts, habiz, hadate, hatime, hastf, hadur, hastat⟩ :=
    bookAppointment_booked_state b sv s.id cn cp ce ci nt cfg newId nowIso st
      (fmtDate c) (fmtHM t) p.1 hdec ⟨cid, dm, sn, hr⟩
  -- decompose the second availability run around `s2`
  obtain ⟨c2, hc2mem, p2, hp2, bh2, hbh2, L2, hgen2, hs2L⟩ :=
    checkAvailability_mem_slots b sv dr tp sidArg cfg today nowMin _ r2 h2 s2 hs2
  obtain ⟨o2, cl2, ho2, hcl2⟩ := generateTimeSlots_parses hgen2
  obtain ⟨k2, hmk2, hle2, hpast2, hscan2⟩ :=
    (generateTimeSlots_mem_iff _ _ _ _ _ _ _ _ _ _ o2 cl2 L2 ho2 hcl2 hgen2 s2).mp hs2L
  set t2 := max (o2 / 60) (parseTimePreference tp).1 * 60 + 30 * k2 with ht2
  have hs2date : s2.date = fmtDate c2 := by rw [hmk2]; rfl
  have hs2time : s2.time = fmtHM t2 := by rw [hmk2]; rfl
  have hs2id : s2.staffId = p2.1 := by rw [hmk2]; rfl
  have hcl2t : cl2 < 1440 := parseHM_lt hcl2
  have ht2lt : t2 < 1440 := by
    have hmin : min (cl2 / 60) (parseTimePreference tp).2 * 60 ≤ cl2 / 60 * 60 :=
      Nat.mul_le_mul_right 60 (Nat.min_le_left _ _)
    have h60 : cl2 / 60 * 60 ≤ cl2 := Nat.div_mul_le_self cl2 60
    omega
  have ht2t : t2 = t := fmtHM_inj ht2lt htlt (by rw [← hs2time, htime, hstime])
  -- the new appointment's date lies between the (unchanged) range bounds
  obtain ⟨⟨hr1v, hr1y⟩, hr2v, hr2y⟩ := parseDateRange_bounds dr today htv hty
  obtain ⟨hcv, hck1, hck2⟩ := mem_dateRangeList hcmem
  have hb1 := date_bounds_of_valid hr1v
  have hb2 := date_bounds_of_valid hr2v
  have hbc := date_bounds_of_valid hcv
  have hcy : c.y ≤ 9999 := by
    unfold Date.key at hck2
    omega
  have hlo : strLeB (fmtDate (parseDateRange dr today).1) (fmtDate c) = true := by
    show charsLe (dateChars (parseDateRange dr today).1) (dateChars c) = true
    rw [dateChars_le_iff _ _ hr1y hb1.1 hb1.2 hcy hbc.1 hbc.2]
    exact hck1
  have hhi : strLeB (fmtDate c) (fmtDate (parseDateRange dr today).2) = true := by
    show charsLe (dateChars c) (dateChars (parseDateRange dr today).2) = true
    rw [dateChars_le_iff _ _ hcy hbc.1 hbc.2 hr2y hb2.1 hb2.2]
    exact hck2
  -- hence it is fetched by the second run and appears among day c2's booked rows
  have hamem : a ∈ fetchApptsInRange b (fmtDate (parseDateRange dr today).1)
      (fmtDate (parseDateRange dr today).2)
      (bookAppointment b sv s.id cn cp ce ci nt cfg newId nowIso st).state.appts := by
    unfold fetchApptsInRange
    rw [happts]
    refine List.mem_filter.mpr ⟨List.mem_append_right _ (List.mem_singleton.mpr rfl), ?_⟩
    simp only [decide_eq_true_eq]
    refine ⟨habiz, ?_, ?_, by rw [hastat]; rfl⟩
    · rw [hadate]
      exact hlo
    · rw [hadate]
      exact hhi
  have hrow : (⟨a.time, a.staffId, a.durationMinutes⟩ : BookedRow) ∈
      bookedRowsFor (fmtDate c2)
        (fetchApptsInRange b (fmtDate (parseDateRange dr today).1)
          (fmtDate (parseDateRange dr today).2)
          (bookAppointment b sv s.id cn cp ce ci nt cfg newId nowIso st).state.appts) := by
    unfold bookedRowsFor
    refine List.mem_map.mpr ⟨a, List.mem_filter.mpr ⟨hamem, ?_⟩, rfl⟩
    simp only [decide_eq_true_eq]
    rw [hadate, ← hsdate, ← hdate, hs2date]
  -- yet the second run found `t2` conflict-free — contradiction with duration ≥ 1
  have hfin := scanBooked_false_same_staff t2 (t2 + serviceDuration cfg sv) p2.1 _
    ⟨a.time, a.staffId, a.durationMinutes⟩ t hscan2 hrow
    (by show a.staffId = p2.1
        rw [hastf, ← hsid, ← hstf, hs2id])
    (by show parseHM a.time = some t
        rw [hatime]
        exact parseHM_fmtHM t htlt)
  rw [ht2t] at hfin
  have hfin2 : overlapB t (t + serviceDuration cfg sv) t (t + serviceDuration cfg sv) =
      false := by
    rw [← hfin]
    show overlapB t (t + serviceDuration cfg sv) t (t + serviceDuration cfg sv) =
      overlapB t (t + serviceDuration cfg sv) t (t + a.durationMinutes)
    rw [hadur]
  unfold overlapB at hfin2
  split_ifs at hfin2 with hcond
  omega

/-- Witness for C9: one service (60 min), no staff rows, Monday hours
09:00-11:00.  The first call returns the 09:00/09:30/10:00 slots; booking
09:00 succeeds; the second call returns only the 10:00 slot, whose
identity differs from the booked one. -/
theorem checkAvailability_book_roundtrip_witness :
    rtSlot ∈ rtRun1.slots ∧
    ¬(rtSlot2.date = rtSlot.date ∧ rtSlot2.time = rtSlot.time ∧
        rtSlot2.staffId = rtSlot.staffId) :=
  ⟨by decide,
    checkAvailability_book_roundtrip "b1" "svc" "today" "Ann" "555" none none none none
      none (some rtConfig) ⟨2025, 1, 6⟩ 0 ⟨[], [], []⟩ "apt-1" "2025-01-06T08:00:00"
      "apt-1" 60 none rtRun1 rtRun2 rtSlot rtSlot2
      (by decide) (by decide) (by decide) (by decide) (by decide) (by decide) (by decide)
      (by intro x hx
          rw [show rtSlot.staffId = none from by decide] at hx
          exact Option.noConfusion hx)
      (by decide)⟩
